import Mathlib

set_option maxHeartbeats 1000000
set_option maxRecDepth 4000
set_option linter.unusedVariables false

/-!
Verification of the dialogue-routing and hybrid-retrieval engine of the
appliance-parts assistant (backend/app.py, backend/utils/guardrails.py,
backend/utils/catalog_class.py, backend/utils/rag_service.py).

Modelling conventions:
* Python strings are `List Char` (`Str`); `s in t` is the substring test
  `isSub`; `str.lower`/`str.upper`/`str.strip` are `lc`/`upper`/`strip`.
* Python float arithmetic is modelled with exact rationals (`Frac`, an
  unnormalised `Int` pair with `Frac.toRat : Frac → ℚ` as its meaning).
  All scores in the source are short sums of the literals 0.05, 0.3, 0.6,
  0.8, 1.0, 1.2, 1.5, 1.8, 2.0, 2.5, 3.0, 5.0 and the comparisons proved
  below are decided with margins far above double rounding error, so the
  exact model agrees with the float behaviour of the source on every
  comparison used here.
* Python `dict`s are association lists (insertion order, first-hit lookup);
  Python `set`s that are only tested for membership or counted are lists;
  where the source iterates a `set` and the iteration order could matter
  (`BRANDS` in `_guess_brand`) we fix the textual order of the literal and
  every theorem below is independent of that choice (at most one brand is
  present in the scrutinised text).
* Regular-expression searches are modelled by the equivalent word-level
  scans: each pattern used by the source is bracketed by `\b` and consumes
  only word characters, so a match is exactly a maximal word-character run
  that satisfies the pattern, and `re.search` returns the leftmost such run.
-/

abbrev Str := List Char

def S (s : String) : Str := s.data

def lc (s : Str) : Str := s.map Char.toLower

def upper (s : Str) : Str := s.map Char.toUpper

def isWS (c : Char) : Bool := c.isWhitespace

def stripL (s : Str) : Str := s.dropWhile isWS

def stripR (s : Str) : Str := (s.reverse.dropWhile isWS).reverse

/-- Python `str.strip()` (the inputs in scope contain only ASCII whitespace). -/
def strip (s : Str) : Str := stripR (stripL s)

/-- `catalog_class._lc`: `(s or "").strip().lower()`. -/
def lcs (s : Str) : Str := lc (strip s)

/-- Prefix test on character lists (Python `str.startswith`, and the
building block of the substring test). -/
def leadsWith : Str → Str → Bool
  | [], _ => true
  | _ :: _, [] => false
  | a :: as, b :: bs => a == b && leadsWith as bs

/-- Python `needle in hay` on strings: contiguous-substring test. -/
def isSub (n h : Str) : Bool :=
  leadsWith n h ||
    match h with
    | [] => false
    | _ :: t => isSub n t

/-- Fuel-driven body of `splitRuns` (structural recursion so that concrete
instances reduce in the kernel). -/
def splitRunsF (p : Char → Bool) : Nat → Str → List Str
  | _, [] => []
  | 0, _ :: _ => []
  | fuel + 1, c :: cs =>
    if p c then (c :: cs.takeWhile p) :: splitRunsF p fuel (cs.dropWhile p)
    else splitRunsF p fuel cs

/-- Maximal runs of characters satisfying `p` (used to model `re.findall`
of a character class, and Python `str.split()`). -/
def splitRuns (p : Char → Bool) (s : Str) : List Str := splitRunsF p s.length s

/-- Python `str.split()` with no argument: split on whitespace runs. -/
def pySplit (s : Str) : List Str := splitRuns (fun c => !isWS c) s

/-- Fuel-driven body of `countOccs`. -/
def countOccsF (n : Str) : Nat → Str → Nat
  | _, [] => if n = [] then 1 else 0
  | 0, _ :: _ => 0
  | fuel + 1, c :: hs =>
    if n = [] then hs.length + 2
    else if leadsWith n (c :: hs) then 1 + countOccsF n fuel ((c :: hs).drop n.length)
    else countOccsF n fuel hs

/-- Python `hay.count(needle)`: non-overlapping occurrences, scanning left
to right (`"".count` conventions included). -/
def countOccs (n h : Str) : Nat := countOccsF n h.length h

/-- Exact rational arithmetic standing in for Python float scores.  The
pair is kept unnormalised (no gcd), so every operation is plain integer
arithmetic and concrete instances reduce inside the kernel; `Frac.toRat`
reads off the rational a value denotes.  Every `Frac` built below has a
positive denominator.  All weights in the source are short decimals, and
every comparison proved below holds with a margin far above double
rounding error, so this exact model agrees with the float behaviour of the
source on every comparison in scope. -/
structure Frac where
  num : Int
  den : Int
deriving DecidableEq

/-- The decimal literal `n/d` (written with a positive `d`). -/
def fq (n d : Int) : Frac := ⟨n, d⟩

def Frac.ofInt (n : Int) : Frac := ⟨n, 1⟩

def Frac.add (a b : Frac) : Frac := ⟨a.num * b.den + b.num * a.den, a.den * b.den⟩

def Frac.mul (a b : Frac) : Frac := ⟨a.num * b.num, a.den * b.den⟩

def Frac.div (a b : Frac) : Frac := ⟨a.num * b.den, a.den * b.num⟩

/-- `a < b` (valid for positive denominators, which all values here have). -/
def Frac.blt (a b : Frac) : Bool := decide (a.num * b.den < b.num * a.den)

/-- `a ≤ b` (same proviso). -/
def Frac.ble (a b : Frac) : Bool := decide (a.num * b.den ≤ b.num * a.den)

def Frac.toRat (a : Frac) : ℚ := (a.num : ℚ) / (a.den : ℚ)

def fsum : List Frac → Frac
  | [] => Frac.ofInt 0
  | x :: xs => x.add (fsum xs)

/-- Stable insertion (descending) for Python `list.sort(key=..., reverse=True)`:
walk past strictly larger keys, so equal keys keep their original order. -/
def insertDescBy {α : Type} (key : α → Frac) (x : α) : List α → List α
  | [] => [x]
  | y :: ys => if Frac.blt (key x) (key y) then y :: insertDescBy key x ys else x :: y :: ys

/-- Stable descending sort by score (model of Python's stable sort with
`reverse=True`). -/
def sortDescBy {α : Type} (key : α → Frac) : List α → List α
  | [] => []
  | x :: xs => insertDescBy key x (sortDescBy key xs)

/-- Stable insertion for sorting strings by length, descending. -/
def insertLenDesc (x : Str) : List Str → List Str
  | [] => [x]
  | y :: ys => if x.length < y.length then y :: insertLenDesc x ys else x :: y :: ys

/-- `potential_models.sort(key=len, reverse=True)`: stable, descending. -/
def sortLenDesc : List Str → List Str
  | [] => []
  | x :: xs => insertLenDesc x (sortLenDesc xs)

/-- Python `str.capitalize()`: first character upper-cased, rest lower-cased. -/
def pyCapitalize (s : Str) : Str :=
  match s with
  | [] => []
  | c :: cs => c.toUpper :: lc cs

/-- Python `str.title()` (ASCII): upper-case every letter that follows a
non-letter, lower-case the other letters. -/
def pyTitleGo : Bool → Str → Str
  | _, [] => []
  | prevAlpha, c :: cs =>
    (if c.isAlpha then (if prevAlpha then c.toLower else c.toUpper) else c) ::
      pyTitleGo c.isAlpha cs

def pyTitle (s : Str) : Str := pyTitleGo false s

-- ============================================================
-- backend/utils/guardrails.py
-- ============================================================

namespace G

/-- `PART_KEYWORDS` (guardrails.py): common part names. -/
def PART_KEYWORDS : List Str :=
  [S "rack", S "basket", S "wheel", S "roller", S "gasket", S "seal", S "pump", S "motor",
   S "hose", S "tube", S "inlet", S "valve", S "filter", S "water", S "drain", S "panel",
   S "handle", S "latch", S "door", S "shelf", S "bin", S "drawer", S "crisper", S "light",
   S "bulb", S "heating", S "element", S "thermostat", S "sensor", S "board", S "control"]

/-- Word characters of `\w` / `\b` (ASCII inputs). -/
def isWordChar (c : Char) : Bool := c.isAlphanum || c = '_'

/-- The words of a string: maximal word-character runs (the only spans a
`\b...\b` pattern over word characters can match). -/
def wordsOf (q : Str) : List Str := splitRuns isWordChar q

/-- Whole-word form of `PART_REGEX = \b(PS|AP|WP|WR|WD|DA|W10|W11|242|530)\d{6,}\b`
(IGNORECASE): listed prefix followed by at least six digits, to the end of
the word. -/
def psWord (w : Str) : Bool :=
  let u := upper w
  [S "PS", S "AP", S "WP", S "WR", S "WD", S "DA", S "W10", S "W11", S "242", S "530"].any
    (fun p => leadsWith p u && decide (6 ≤ (u.drop p.length).length)
      && (u.drop p.length).all Char.isDigit)

/-- `PART_REGEX.search(q)`: leftmost word matching the part pattern
(returns the matched text in its original case). -/
def part_regex_search (q : Str) : Option Str :=
  ((wordsOf q).filter psWord).head?

/-- Whole-word form of `MODEL_REGEX = \b(\w{3,}\d{3,}\w*)\b`: the word has at
least three word characters, then at least three digits somewhere after them. -/
def modelWord (w : Str) : Bool :=
  (List.range w.length).any (fun i =>
    decide (3 ≤ i) && decide (i + 3 ≤ w.length) && ((w.drop i).take 3).all Char.isDigit)

structure Entities where
  part : Option Str
  model : Option Str
deriving DecidableEq

/-- `extract_entities(query)` (guardrails.py). -/
def extract_entities (query : Str) : Entities :=
  let part_match := part_regex_search query
  let potential_models := (wordsOf query).filter modelWord
  let sorted := sortLenDesc potential_models
  let model_match := sorted.find? (fun m =>
    match part_match with
    | none => true
    | some p => decide (upper m ≠ upper p))
  { part := part_match.map upper, model := model_match.map upper }

structure Intent where
  type : Str
  confidence : Frac
deriving DecidableEq

/-- `intent_classify(query)` (guardrails.py): ordered keyword cascade
(confidences 0.95, 0.9, 0.9, 0.8, 0.7). -/
def intent_classify (query : Str) : Intent :=
  let q := lc query
  if isSub (S "compatible") q || isSub (S "fit") q || isSub (S "work with") q then
    ⟨S "compatibility", fq 95 100⟩
  else if isSub (S "how to") q || isSub (S "install") q || isSub (S "replace") q
      || isSub (S "remove") q then
    ⟨S "installation", fq 9 10⟩
  else if isSub (S "leaking") q || isSub (S "not cooling") q || isSub (S "not draining") q
      || isSub (S "loud noise") q || isSub (S "won't start") q
      || isSub (S "ice maker not working") q then
    ⟨S "symptom", fq 9 10⟩
  else if isSub (S "find") q || isSub (S "need") q || isSub (S "buy") q
      || isSub (S "part for") q || isSub (S "looking for") q
      || PART_KEYWORDS.any (fun k => (pySplit q).contains k) then
    ⟨S "part_lookup", fq 8 10⟩
  else
    ⟨S "general_help", fq 7 10⟩

-- ---------- Memory (guardrails.py) ----------

/-- One session record: a Python dict, keys in insertion order. -/
abbrev Sess := List (Str × Option Str)

/-- `Memory._store`. -/
abbrev MemStore := List (Str × Sess)

/-- The record `_get_or_create` installs for an unseen session id.  NOTE:
the source initialises only these three keys; `last_switch_refused_for`
is absent. -/
def defaultSess : Sess :=
  [(S "last_intent", none), (S "last_part", none), (S "last_model", none)]

def storeLookup (st : MemStore) (sid : Str) : Option Sess :=
  (st.find? (fun e => e.1 == sid)).map (·.2)

/-- `Memory._get_or_create`. -/
def get_or_create (st : MemStore) (sid : Str) : MemStore × Sess :=
  match storeLookup st sid with
  | some s => (st, s)
  | none => (st ++ [(sid, defaultSess)], defaultSess)

/-- `Memory.get`: lazily creates, returns a copy of the record. -/
def memGet (st : MemStore) (sid : Str) : MemStore × Sess := get_or_create st sid

/-- One `session[key] = value` guarded by `if key in session` (Memory.update
body for a single keyword argument). -/
def setIfKnown (s : Sess) (k : Str) (v : Option Str) : Sess :=
  if s.any (fun p => p.1 == k) then s.map (fun p => if p.1 == k then (k, v) else p) else s

/-- The loop of `Memory.update` over the keyword arguments. -/
def sessUpdate (s : Sess) (kvs : List (Str × Option Str)) : Sess :=
  kvs.foldl (fun s p => setIfKnown s p.1 p.2) s

def storeSet (st : MemStore) (sid : Str) (s : Sess) : MemStore :=
  st.map (fun e => if e.1 == sid then (sid, s) else e)

/-- `Memory.update(session_id, **kwargs)`. -/
def memUpdate (st : MemStore) (sid : Str) (kvs : List (Str × Option Str)) : MemStore :=
  let p := get_or_create st sid
  storeSet p.1 sid (sessUpdate p.2 kvs)

/-- Python `session.get(k)` on a returned record (absent key and stored
`None` both read as `None`). -/
def sessLookup (s : Sess) (k : Str) : Option (Option Str) :=
  (s.find? (fun p => p.1 == k)).map (·.2)

def sessGetVal (s : Sess) (k : Str) : Option Str := (sessLookup s k).join

end G

-- ============================================================
-- backend/utils/catalog_class.py
-- ============================================================

namespace C

/-- `BRANDS` (a Python set; its iteration order is unspecified — we fix the
textual order of the literal.  Every theorem below is independent of this
choice, because at most one brand occurs in the scrutinised text). -/
def BRANDS : List Str :=
  [S "whirlpool", S "maytag", S "ge", S "frigidaire", S "samsung",
   S "lg", S "bosch", S "kitchenaid", S "amana", S "kenmore"]

def asciiLetter (c : Char) : Bool :=
  (decide ('a' ≤ c) && decide (c ≤ 'z')) || (decide ('A' ≤ c) && decide (c ≤ 'Z'))

/-- Whole-word form of `PARTNUM_RE = \b[A-Z]{1,3}\d{4,8}[A-Z]?\b` (IGNORECASE):
one to three letters, four to eight digits, optionally one trailing letter,
spanning the whole word. -/
def partnumWord (w : Str) : Bool :=
  let ls := w.takeWhile asciiLetter
  let rest := w.dropWhile asciiLetter
  let ds := rest.takeWhile Char.isDigit
  let post := rest.dropWhile Char.isDigit
  decide (1 ≤ ls.length) && decide (ls.length ≤ 3)
    && decide (4 ≤ ds.length) && decide (ds.length ≤ 8)
    && (match post with | [] => true | [c] => asciiLetter c | _ => false)

/-- `PARTNUM_RE.search(q)`: leftmost word matching the pattern (original case). -/
def partnum_search (q : Str) : Option Str :=
  ((G.wordsOf q).filter partnumWord).head?

/-- `_tokens`: `re.findall(r"[a-z0-9\-]+", _lc(s))`. -/
def isTokChar (c : Char) : Bool :=
  (decide ('a' ≤ c) && decide (c ≤ 'z')) || c.isDigit || c == '-'

def tokensOf (s : Str) : List Str := splitRuns isTokChar (lcs s)

/-- `_guess_brand`. -/
def guess_brand (t : Str) : Option Str :=
  (BRANDS.find? (fun b => isSub b (lcs t))).map pyCapitalize

/-- `_guess_appliance`. -/
def guess_appliance (t : Str) (dflt : Option Str) : Option Str :=
  let tl := lcs t
  if isSub (S "dishwasher") tl || isSub (S "dish washer") tl then some (S "dishwasher")
  else if isSub (S "refrigerator") tl || isSub (S "fridge") tl || isSub (S "freezer") tl then
    some (S "refrigerator")
  else dflt

/-- `CATEGORY_KEYS` (dict of sets; dict order is insertion order, and the
set contents are only counted, so list order is immaterial). -/
def CATEGORY_KEYS : List (Str × List Str) :=
  [(S "rack", [S "rack", S "dishrack", S "upper", S "lower", S "basket", S "silverware",
      S "cutlery", S "adjuster", S "roller", S "track", S "clip", S "drawer", S "tray"]),
   (S "pump", [S "pump", S "drain", S "wash", S "circulation"]),
   (S "filter", [S "filter"]),
   (S "hose", [S "hose", S "inlet", S "drain", S "line"]),
   (S "valve", [S "valve", S "inlet", S "water"]),
   (S "door", [S "door", S "gasket", S "seal", S "latch", S "hinge"]),
   (S "tray", [S "tray", S "shelf", S "bin", S "drawer", S "crisper"]),
   (S "ice", [S "ice", S "icemaker", S "ice-maker", S "auger", S "bucket"])]

def catHits (tl : Str) (keys : List Str) : Nat :=
  (keys.filter (fun kw => isSub kw tl)).length

/-- `_guess_category`: the first category (in dict order) with the strictly
largest number of keyword hits; `None` when no keyword hits at all. -/
def guess_category (t : Str) : Option Str :=
  let tl := lcs t
  (CATEGORY_KEYS.foldl
    (fun acc ck => if catHits tl ck.2 > acc.2 then (some ck.1, catHits tl ck.2) else acc)
    ((none : Option Str), 0)).1

/-- One catalog entry (the dict shape produced by `_parse_html_to_items`;
the synthetic "no local results" entry uses empty defaults for the keys it
does not carry, matching `dict.get`'s `None`/absent semantics at every use
site in scope). -/
structure Item where
  partNumber : Str
  name : Str
  brand : Str
  appliance : Str
  category : Str
  description : Str
  officialURL : Str
  installGuide : Option Str
  models : List Str
  brands : List Str
deriving DecidableEq

/-- Python `", ".join` / `" ".join`. -/
def joinSep (sep : Str) : List Str → Str
  | [] => []
  | [x] => x
  | x :: xs => x ++ sep ++ joinSep sep xs

/-- `q.replace(' ', '+')`. -/
def plusEscape (q : Str) : Str := q.map (fun c => if c = ' ' then '+' else c)

/-- The per-token name/description gain of `Catalog.search`'s scoring loop
(+0.6 on a name hit, +0.3 on a description hit). -/
def tokGain (t : Str) (p : Item) : Frac :=
  Frac.add (if isSub t (lcs p.name) then fq 6 10 else fq 0 10)
    (if isSub t (lcs p.description) then fq 3 10 else fq 0 10)

/-- The lexical score of one entry in `Catalog.search` (the `s` accumulated
in its scoring loop): base 0.05, +2.0 brand, +2.5 appliance, +2.0 category,
token gains, +0.8 rack precision bonus. -/
def scoreItem (brand appl cat : Option Str) (toks : List Str) (p : Item) : Frac :=
  (fq 5 100).add
    ((match brand with
      | some b => if isSub (lcs b) (lcs p.brand) then fq 2 1 else fq 0 1
      | none => fq 0 1).add
      ((match appl with
        | some a => if isSub a (lcs p.appliance) then fq 25 10 else fq 0 10
        | none => fq 0 10).add
        ((match cat with
          | some c => if isSub c (lcs p.category) then fq 2 1 else fq 0 1
          | none => fq 0 1).add
          ((fsum (toks.map (fun t => tokGain t p))).add
            (if cat == some (S "rack") && isSub (S "rack") (lcs p.name) then fq 8 10
             else fq 0 10)))))

/-- `set(_tokens(q))`: the distinct query tokens (iterated once each). -/
def queryToks (q : Str) : List Str := (tokensOf q).dedup

/-- The full score of entry `p` against query `q` in `Catalog.search`. -/
def scoreFor (q : Str) (p : Item) : Frac :=
  scoreItem (guess_brand q) (guess_appliance q none) (guess_category q) (queryToks q) p

/-- The synthetic "no local results" fallback entry. -/
def fallbackItem (query q : Str) : Item :=
  { partNumber := S "N/A",
    name := S "No local results for '" ++ query ++ S "'.",
    brand := [], appliance := [], category := [],
    description := S "Try the official catalog.",
    officialURL := S "https://www.partselect.com/Search.aspx?SearchTerm=" ++ plusEscape q,
    installGuide := none, models := [], brands := [] }

/-- The scored stage of `Catalog.search` (reached when no exact part-number
match fires). -/
def scoredStage (items : List Item) (query q : Str) : List Item :=
  let scored := (items.map (fun p => (scoreFor q p, p))).filter
    (fun sp => Frac.ble (fq 6 10) sp.1)
  let sorted := sortDescBy (fun sp => sp.1) scored
  let results := (sorted.map (fun sp => sp.2)).take 5
  if results = [] then [fallbackItem query q] else results

/-- `Catalog.search(query, part=None, model=None)`.  (`model` is accepted and
ignored, as in the source.) -/
def search (items : List Item) (query : Str) (part : Option Str) (model : Option Str) :
    List Item :=
  let q0 := match part with
    | some p => if p ≠ [] then p else query
    | none => query
  let q := strip q0
  if q = [] then []
  else
    match partnum_search q with
    | some w =>
      let pn := upper w
      let exact := items.filter (fun p => lcs p.partNumber == lcs pn)
      if exact ≠ [] then exact.take 5 else scoredStage items query q
    | none => scoredStage items query q

/-- `Catalog.is_compatible(part, model)`. -/
def is_compatible (items : List Item) (part model : Str) : Bool × Str :=
  let part := upper (strip part)
  let model := upper (strip model)
  if part = [] || model = [] then
    (false, S "Please provide both a part number and a full model number.")
  else
    let hit := items.find? (fun p => lcs p.partNumber == lcs part)
    let url := S "https://www.partselect.com/ModelSearch.aspx?SearchTerm="
      ++ model ++ S "+" ++ part
    let tip := S "Tip: model numbers are on the rating tag; include all suffix letters."
    match hit with
    | some h =>
      if (h.models.map upper).contains model then
        (true, S "✅ " ++ part ++ S " fits model " ++ model ++ S ".")
      else
        let brands := joinSep (S ", ") h.brands
        (false, S "Compatibility for " ++ model ++ S " not confirmed locally (known brand(s): "
          ++ (if brands = [] then S "N/A" else brands) ++ S "). Check: " ++ url
          ++ S "\n" ++ tip)
    | none => (false, S "I couldn’t find " ++ part ++ S " locally. Verify here: " ++ url)

/-- The generic three-step guide text (`base`), with the rack variant. -/
def guideBase (rackLike : Bool) : Str :=
  if rackLike then
    S "1) Disconnect power\n2) Remove rack; release clips/rollers/adjusters\n3) Seat and align replacement; test slide"
  else
    S "1) Disconnect power/water\n2) Remove the faulty component\n3) Install replacement; restore and test"

/-- `Catalog.install_guide(part)` (`model` argument unused in the source). -/
def install_guide (items : List Item) (part : Option Str) : Str :=
  let pt := upper (strip (part.getD []))
  if pt = [] then S "Please provide a part number (e.g., 'How to install WP2188656')."
  else
    let hit := items.find? (fun p => lcs p.partNumber == lcs pt)
    match hit with
    | some h =>
      match h.installGuide with
      | some g =>
        if g ≠ [] then g
        else S "General guide for " ++ pt ++ S ":\n" ++ guideBase (isSub (S "rack") (lcs h.category))
      | none =>
        S "General guide for " ++ pt ++ S ":\n" ++ guideBase (isSub (S "rack") (lcs h.category))
    | none => S "General guide for " ++ pt ++ S ":\n" ++ guideBase false

/-- `Catalog.find_parts(appliance_type, brand, category, query)`. -/
def find_parts (items : List Item) (appliance_type brand category query : Option Str) :
    List Item :=
  let pieces := [query.getD [], brand.getD [], appliance_type.getD [],
    category.getD []].filter (fun x => x ≠ [])
  let q := strip (joinSep (S " ") pieces)
  let res := search items (if q ≠ [] then q else category.getD []) none none
  match res with
  | [] => res
  | r :: _ =>
    if r.partNumber ≠ S "N/A" then
      let out := res.filter (fun p =>
        (match appliance_type with
         | some a => if a ≠ [] then isSub (lc a) (lcs p.appliance) else true
         | none => true) &&
        (match brand with
         | some b => if b ≠ [] then isSub (lcs b) (lcs p.brand) else true
         | none => true) &&
        (match category with
         | some c => if c ≠ [] then isSub (lcs c) (lcs p.category) else true
         | none => true))
      if out ≠ [] then out else res
    else res

/-- The brand component of `scoreItem` (+2.0 when the guessed brand occurs in
the entry's brand field), named so the additive structure of the score can be
stated; `scoreItem_components` below shows `scoreItem` is literally the sum. -/
def brGain (brand : Option Str) (p : Item) : Frac :=
  match brand with
  | some b => if isSub (lcs b) (lcs p.brand) then fq 2 1 else fq 0 1
  | none => fq 0 1

/-- The appliance component of `scoreItem` (+2.5). -/
def apGain (appl : Option Str) (p : Item) : Frac :=
  match appl with
  | some a => if isSub a (lcs p.appliance) then fq 25 10 else fq 0 10
  | none => fq 0 10

/-- The category component of `scoreItem` (+2.0). -/
def ctGain (cat : Option Str) (p : Item) : Frac :=
  match cat with
  | some c => if isSub c (lcs p.category) then fq 2 1 else fq 0 1
  | none => fq 0 1

/-- The rack-precision component of `scoreItem` (+0.8). -/
def rkGain (cat : Option Str) (p : Item) : Frac :=
  if cat == some (S "rack") && isSub (S "rack") (lcs p.name) then fq 8 10 else fq 0 10

/-- The summed per-token component of `scoreItem`. -/
def tokSum (toks : List Str) (p : Item) : Frac :=
  fsum (toks.map (fun t => tokGain t p))

end C

-- ============================================================
-- backend/utils/rag_service.py
-- ============================================================

namespace R

/-- `RAGService.classify_intent`. -/
def classify_intent (query : Str) : Str :=
  let q := lc query
  if [S "compatible", S "fit", S "works with"].any (fun w => isSub w q) then
    S "compatibility"
  else if [S "how to", S "replace", S "install", S "fix", S "repair",
      S "broken"].any (fun w => isSub w q) then
    S "repair_guide"
  else if [S "rack", S "filter", S "pump", S "hose", S "basket", S "drawer",
      S "bin", S "ice maker"].any (fun w => isSub w q) then
    S "part_lookup"
  else if [S "clean", S "maintain", S "how often", S "smell"].any (fun w => isSub w q) then
    S "maintenance"
  else S "general_help"

/-- The fixed `weights` dict of `RAGService.search` (before the context
override): 3.0, 3.0, 1.8, 1.8, 1.8, 1.8, 2.0, 1.5, 1.2, 1.2, 2.5, 2.5,
2.5, 2.5. -/
def weightsTable : List (Str × Frac) :=
  [(S "dishwasher", fq 3 1), (S "refrigerator", fq 3 1),
   (S "rack", fq 18 10), (S "filter", fq 18 10), (S "drawer", fq 18 10), (S "bin", fq 18 10),
   (S "ice maker", fq 2 1), (S "pump", fq 15 10), (S "hose", fq 12 10), (S "basket", fq 12 10),
   (S "whirlpool", fq 25 10), (S "kenmore", fq 25 10), (S "maytag", fq 25 10),
   (S "lg", fq 25 10)]

def tableLookup (t : Str) : Option Frac :=
  (weightsTable.find? (fun e => e.1 == t)).map (fun e => e.2)

/-- The weight of one term after
`if appliance_context in weights: weights[appliance_context] = 5.0`
(`weights.get(term, 1.0)` on the possibly-overridden dict). -/
def ragWeight (ctx term : Str) : Frac :=
  if (tableLookup ctx).isSome && term == ctx then fq 5 1 else (tableLookup term).getD (fq 1 1)

/-- `query.lower().split()` with the appliance context appended (a plain
list: duplicate terms are scored repeatedly, as in the source). -/
def queryTerms (query ctx : Str) : List Str := pySplit (lc query) ++ [ctx]

/-- One document's weighted-keyword score. -/
def docScore (ctx : Str) (terms : List Str) (doc : Str) : Frac :=
  fsum (terms.map (fun t => (Frac.ofInt (countOccs t (lc doc))).mul (ragWeight ctx t)))

/-- The weighted-keyword stage: positively scoring documents, sorted stably
by score, descending. -/
def weightedStage (docs : List Str) (query ctx : Str) : List (Str × Frac) :=
  sortDescBy (fun p => p.2)
    ((docs.map (fun d => (d, docScore ctx (queryTerms query ctx) d))).filter
      (fun p => Frac.blt (fq 0 1) p.2))

/-- `RAGService._fallback_similarity`: Jaccard over whitespace token sets,
kept when `> 0.05`, sorted descending. -/
def jaccardStage (docs : List Str) (query : Str) : List (Str × Frac) :=
  let query_set := (pySplit (lc query)).dedup
  sortDescBy (fun p => p.2)
    ((docs.map (fun d =>
      let doc_set := (pySplit (lc d)).dedup
      let inter := (query_set.filter (fun t => doc_set.contains t)).length
      let union := (query_set ++ doc_set.filter (fun t => !query_set.contains t)).length
      (d, if union ≠ 0 then Frac.div (Frac.ofInt inter) (Frac.ofInt union) else Frac.ofInt 0))).filter
      (fun p => Frac.blt (fq 5 100) p.2))

/-- `RAGService.search(query, appliance_context, k)`. -/
def ragSearch (docs : List Str) (query ctx : Str) (k : Nat) : List Str :=
  if docs = [] then [S "(Internal Error: No RAG documents loaded.)"]
  else
    let scores := weightedStage docs query ctx
    let scores := if scores = [] then jaccardStage docs query else scores
    (scores.take k).map (fun p => p.1)

/-- `RAGService.build_prompt`: pure template assembly. -/
def build_prompt (user_query : Str) (retrieved_docs : List Str)
    (chat_history : List (Str × Str)) (appliance_context : Str) : Str :=
  let intent := classify_intent user_query
  let context := if retrieved_docs ≠ [] then C.joinSep (S "\n\n") (retrieved_docs.take 3)
    else S "(No context found)"
  let history_str := C.joinSep (S "\n")
    (chat_history.map (fun m => m.1 ++ S ": " ++ m.2))
  let app := upper appliance_context
  S "\n# Role\nYou are Instalilly AI — a friendly and expert AI repair assistant for PartSelect.\nYou are currently helping a customer with their **"
  ++ app
  ++ S "**.\n\n# Objective\nHelp users find correct replacement parts, confirm part compatibility,\nand get repair/installation guides for their appliance.\n\n# Rules\n- **STAY ON TOPIC:** Only answer about the user's **"
  ++ app
  ++ S "**.\n- **BE CONCISE:** Give clear, actionable answers. Do not overwhelm the user.\n- **USE CONTEXT:** Base your answer *only* on the provided \"Context\" from the parts database.\n- **PART NUMBERS:** When listing parts, always include the Part Number (e.g., PS11752778).\n- **SAFETY FIRST:** For any installation or repair, *always* include a safety warning (e.g., \"Before you begin, make sure to unplug your appliance and shut off the water supply.\").\n\n# Detected Intent: "
  ++ intent
  ++ S "\n\n# Conversation History\n"
  ++ history_str
  ++ S "\n\n# Context (retrieved from parts database)\n"
  ++ context
  ++ S "\n\n# User Query\n"
  ++ user_query
  ++ S "\n\n# Expected Output\n- **For 'part_lookup':** \"Here are some parts that match your description: \n 1. [Part Name] (Part: [Part Number]) \n 2. ...\"\n- **For 'repair_guide':** \"I can help with that! Here are the steps: \n [SAFETY WARNING] \n 1. [Step] \n 2. [Step]...\"\n- **For 'compatibility':** \"Please provide both the Part Number and your appliance's Model Number so I can check for you.\" (Unless you can infer it from history).\n- **If out of scope (e.g., user asks about a car):** Politely state that you can only help with **"
  ++ appliance_context
  ++ S "** parts.\n"

end R

-- ============================================================
-- backend/app.py — the dialogue router (`chat` endpoint)
-- ============================================================

namespace App

structure ChatIn where
  message : Str
  part : Option Str
  model : Option Str
  appliance : Str
deriving DecidableEq

structure ChatOut where
  response : Str
  intent : Str
  memory : G.Sess
deriving DecidableEq

/-- The process-wide mutable state threaded through a turn: the `Memory`
store and the `chat_memory` ring buffers. -/
structure St where
  mem : G.MemStore
  chat_memory : List (Str × List (Str × Str))
deriving DecidableEq

/-- Effect trace of one turn: which collaborators were invoked. -/
structure Calls where
  usedInstall : Bool
  usedCompat : Bool
  usedRag : Bool
  usedLLM : Bool
deriving DecidableEq

structure Turn where
  out : ChatOut
  st : St
  calls : Calls
deriving DecidableEq

/-- The environment a request handler closes over: the immutable catalog,
the RAG corpus, and the (optional, opaque) LLM collaborator. -/
structure Env where
  items : List C.Item
  ragDocs : List Str
  llm : Option (Str → Option Str)

/-- `never_empty` (app.py). -/
def never_empty (text : Option Str) : Str :=
  match text with
  | none => S "(LLM returned no content.)"
  | some text =>
    if text = [] then S "(LLM returned no content.)"
    else
      let t := strip text
      if t = [] || lc t == S "none" || lc t == S "null" || lc t == S "nan" then
        S "(LLM returned no content.)"
      else t

/-- `_other_appliance_hint(q, current)` (app.py). -/
def other_appliance_hint (q cur : Str) : Option Str :=
  let s := lc q
  if [S "fridge", S "refrigerator", S "freezer"].any (fun k => isSub k s) then
    if cur ≠ S "refrigerator" then some (S "refrigerator") else none
  else if [S "dishwasher", S "dish washer"].any (fun k => isSub k s) then
    if cur ≠ S "dishwasher" then some (S "dishwasher") else none
  else none

/-- `_format_part_list(parts)` (app.py). -/
def format_part_list (parts : List C.Item) : Str :=
  C.joinSep (S "\n") ((parts.take 5).map (fun p =>
    S "• " ++ p.partNumber ++ S " – " ++ p.name ++ S " ("
      ++ pyCapitalize p.appliance ++ S ", " ++ p.brand ++ S ")"))

/-- Python `x or y` on an optional string (`or` returns `y` whenever `x` is
`None` or empty). -/
def orElseStr (a b : Option Str) : Option Str :=
  match a with
  | some p => if p ≠ [] then some p else b
  | none => b

/-- `part_search_keywords` (app.py step [6]). -/
def part_search_keywords : List Str :=
  [S "show me", S "find", S "replacement", S "rack", S "pump", S "valve", S "filter",
   S "tray", S "basket", S "drawer", S "bin", S "door", S "crisper", S "shelf",
   S "track", S "roller", S "adjuster"]

/-- The brand alternation of the step-[6] regex
`\b(whirlpool|maytag|ge|frigidaire|samsung|lg|bosch|kitchenaid|amana|kenmore)\b`
(IGNORECASE): leftmost word equal to a listed brand, in its original case. -/
def brand_regex_search (q : Str) : Option Str :=
  ((G.wordsOf q).filter (fun w =>
    [S "whirlpool", S "maytag", S "ge", S "frigidaire", S "samsung", S "lg",
     S "bosch", S "kitchenaid", S "amana", S "kenmore"].contains (lc w))).head?

/-- `category_keywords` of step [6]; `next((w for w in category_keywords if
w in q.lower()), None)` is the first keyword in *list* order that is a
substring of the lowered query. -/
def category_keywords : List Str :=
  [S "rack", S "pump", S "filter", S "hose", S "tray", S "door", S "handle",
   S "drawer", S "basket", S "bin", S "valve", S "crisper", S "shelf", S "track",
   S "roller", S "adjuster"]

def chatCategory (q : Str) : Option Str :=
  category_keywords.find? (fun w => isSub w (lc q))

def cmSet (cm : List (Str × List (Str × Str))) (sid : Str) (v : List (Str × Str)) :
    List (Str × List (Str × Str)) :=
  if cm.any (fun e => e.1 == sid) then cm.map (fun e => if e.1 == sid then (sid, v) else e)
  else cm ++ [(sid, v)]

def cmAppend (cm : List (Str × List (Str × Str))) (sid : Str) (m : Str × Str) :
    List (Str × List (Str × Str)) :=
  cm.map (fun e => if e.1 == sid then (e.1, e.2 ++ [m]) else e)

/-- app.py lines 172-177: install/trim the session chat history.  The local
list used later by `build_prompt` is the *untrimmed* one (the source trims
by rebinding `chat_memory[sid]` to a new list, which the local variable
does not alias). -/
def historySetup (cm : List (Str × List (Str × Str))) (sid q : Str) :
    (List (Str × List (Str × Str))) × List (Str × Str) :=
  let prior := ((cm.find? (fun e => e.1 == sid)).map (fun e => e.2)).getD []
  let local_hist := prior ++ [(S "user", q)]
  let stored := if local_hist.length > 8 then local_hist.drop (local_hist.length - 8)
    else local_hist
  (cmSet cm sid stored, local_hist)

/-- Step [9]: RAG fallback (retrieval + prompt + LLM + history append +
`last_intent` update). -/
def ragStep (env : Env) (sid cur q itype : Str) (mem0 : G.MemStore)
    (cm1 : List (Str × List (Str × Str))) (local_hist : List (Str × Str)) : Turn :=
  let docs := R.ragSearch env.ragDocs q cur 6
  let prompt := R.build_prompt q docs local_hist cur
  let reply := match env.llm with
    | some answer => never_empty (answer prompt)
    | none => S "LLM unavailable."
  let cm2 := cmAppend cm1 sid (S "assistant", reply)
  let mem2 := G.memUpdate mem0 sid [(S "last_intent", some itype)]
  let g := G.memGet mem2 sid
  { out := { response := reply, intent := itype, memory := g.2 },
    st := { mem := g.1, chat_memory := cm2 },
    calls := { usedInstall := false, usedCompat := false, usedRag := true,
               usedLLM := env.llm.isSome } }

/-- Step [6]: the part-search branch.  (Its `try/except` is dead in the
embedding: every operation inside is total, so the `except` fall-through to
steps [7]-[9] cannot trigger.) -/
def partSearchStep (env : Env) (sid cur q : Str) (mem0 : G.MemStore) (mem : G.Sess)
    (cm1 : List (Str × List (Str × Str))) : Turn :=
  let brand := brand_regex_search q
  let category := chatCategory q
  let other := other_appliance_hint q cur
  let refused_for := G.sessGetVal mem (S "last_switch_refused_for")
  let appliance_hint := match other with
    | some o => if refused_for = some o then o else cur
    | none => cur
  let results := C.find_parts env.items (some appliance_hint) brand category (some q)
  let switch_note := match other with
    | some o =>
      if refused_for = some o then
        S "\n\n(You mentioned <strong>" ++ o
          ++ S "</strong> but chose to stay. You can switch anytime with the floating toggle.)"
      else []
    | none => []
  let g := G.memGet mem0 sid
  let noCalls : Calls :=
    { usedInstall := false, usedCompat := false, usedRag := false, usedLLM := false }
  let noLocal : Turn :=
    let fallback_url := match results with
      | [] => none
      | r :: _ => if r.officialURL ≠ [] then some r.officialURL else none
    let link := match fallback_url with
      | some u => S "\nTry the official catalog: " ++ u
      | none => []
    let resp := S "I couldn’t find specific " ++ (category.getD (S "replacement"))
      ++ S " parts locally for "
      ++ ((orElseStr brand (some (S "this brand"))).getD [])
      ++ S " " ++ cur ++ S "." ++ switch_note ++ link
    { out := { response := resp, intent := S "part_search", memory := g.2 },
      st := { mem := g.1, chat_memory := cm1 }, calls := noCalls }
  match results with
  | r :: _ =>
    if r.partNumber ≠ S "N/A" then
      let list_str := format_part_list results
      let resp := S "Here are some " ++ (category.getD (S "relevant"))
        ++ S " parts I found for "
        ++ ((orElseStr brand (some (pyTitle appliance_hint))).getD [])
        ++ S ":" ++ switch_note ++ S "\n" ++ list_str
      { out := { response := resp, intent := S "part_search", memory := g.2 },
        st := { mem := g.1, chat_memory := cm1 }, calls := noCalls }
    else noLocal
  | [] => noLocal

/-- Steps [4]-[9] of the router (after the refusal marker and the mismatch
guard; the step-[3] scope guard only logs and cannot affect the result). -/
def chatMain (env : Env) (inp : ChatIn) (sid cur q : Str) (mem0 : G.MemStore)
    (mem : G.Sess) (cm1 : List (Str × List (Str × Str)))
    (local_hist : List (Str × Str)) : Turn :=
  -- [4] entity extraction and merge with session memory.
  -- (`ent.setdefault("part", inp.part)` / `ent.setdefault("model", inp.model)`
  -- are no-ops: `extract_entities` always sets both keys.)
  let ent := G.extract_entities q
  let entPart := orElseStr ent.part (G.sessGetVal mem (S "last_part"))
  let entModel := orElseStr ent.model (G.sessGetVal mem (S "last_model"))
  -- [5] intent classification
  let intent := G.intent_classify q
  let itype := intent.type
  -- [6] part search trigger
  if part_search_keywords.any (fun k => isSub k (lc q)) then
    partSearchStep env sid cur q mem0 mem cm1
  -- [7] installation
  else if itype == S "installation" then
    let part_num := entPart
    let guide := C.install_guide env.items part_num
    let mem2 := G.memUpdate mem0 sid
      [(S "last_part", part_num), (S "last_intent", some (S "installation"))]
    let g := G.memGet mem2 sid
    { out := { response := guide, intent := S "installation", memory := g.2 },
      st := { mem := g.1, chat_memory := cm1 },
      calls := { usedInstall := true, usedCompat := false, usedRag := false,
                 usedLLM := false } }
  -- [8] compatibility
  else if itype == S "compatibility" then
    let part_num := orElseStr entPart (G.sessGetVal mem (S "last_part"))
    let model_hint := orElseStr entModel (G.sessGetVal mem (S "last_model"))
    match part_num, model_hint with
    | some p, some m =>
      if p ≠ [] && m ≠ [] then
        let r := C.is_compatible env.items p m
        let mem2 := G.memUpdate mem0 sid
          [(S "last_part", some p), (S "last_model", some m),
           (S "last_intent", some (S "compatibility"))]
        let g := G.memGet mem2 sid
        { out := { response := r.2, intent := S "compatibility", memory := g.2 },
          st := { mem := g.1, chat_memory := cm1 },
          calls := { usedInstall := false, usedCompat := true, usedRag := false,
                     usedLLM := false } }
      else ragStep env sid cur q itype mem0 cm1 local_hist
    | _, _ => ragStep env sid cur q itype mem0 cm1 local_hist
  -- [9] RAG fallback
  else ragStep env sid cur q itype mem0 cm1 local_hist

/-- `POST /chat` (app.py `chat`): one turn of the dialogue router. -/
def chat (env : Env) (inp : ChatIn) (sid : Str) (st : St) : Turn :=
  let q := strip inp.message
  let cur := if inp.appliance = [] then S "dishwasher" else lc inp.appliance
  let p := historySetup st.chat_memory sid q
  let cm1 := p.1
  let local_hist := p.2
  -- [0] refusal marker
  if isSub (S "user refused switch") (lc q) then
    let mem1 := G.memUpdate st.mem sid [(S "last_switch_refused_for", some cur)]
    let g := G.memGet mem1 sid
    { out := { response := S "Got it — staying with your current " ++ cur ++ S " context.",
               intent := S "ack_refuse", memory := g.2 },
      st := { mem := g.1, chat_memory := cm1 },
      calls := { usedInstall := false, usedCompat := false, usedRag := false,
                 usedLLM := false } }
  else
    -- [1] memory snapshot (lazily creates the record)
    let got := G.memGet st.mem sid
    let mem0 := got.1
    let mem := got.2
    -- [2] appliance mismatch guard
    let alt := other_appliance_hint q cur
    let refused_for := G.sessGetVal mem (S "last_switch_refused_for")
    match alt with
    | some a =>
      if refused_for ≠ some a then
        let resp := S "It sounds like you’re asking about a <strong>" ++ a
          ++ S "</strong>. You can say “switch to " ++ a
          ++ S "” or click the switch button to change context."
        { out := { response := resp, intent := S "switch_suggestion", memory := mem },
          st := { mem := mem0, chat_memory := cm1 },
          calls := { usedInstall := false, usedCompat := false, usedRag := false,
                     usedLLM := false } }
      else chatMain env inp sid cur q mem0 mem cm1 local_hist
    | none => chatMain env inp sid cur q mem0 mem cm1 local_hist

end App

-- ============================================================
-- Concrete fixtures used by counterexamples and witnesses
-- ============================================================

def envEmpty : App.Env := { items := [], ragDocs := [], llm := none }

/-- Brand-monotonicity counterexample, target entry: brand GE, category
rack. -/
def itemT8 : C.Item :=
  { partNumber := [], name := S "dish", brand := S "GE", appliance := [],
    category := S "rack", description := [], officialURL := [],
    installGuide := none, models := [], brands := [] }

/-- Brand-monotonicity counterexample, competitor entry: brand Samsung, but
its name and description contain "ge" as a substring. -/
def itemE8 : C.Item :=
  { partNumber := [], name := S "alpha beta gamma delta gem", brand := S "Samsung",
    appliance := [], category := S "pump", description := S "alpha beta gamma delta ge",
    officialURL := [], installGuide := none, models := [], brands := [] }

def testItemRack : C.Item :=
  { partNumber := S "PS11752778", name := S "Lower Dishrack Wheel", brand := S "Whirlpool",
    appliance := S "dishwasher", category := S "rack", description := S "dishwasher rack wheel",
    officialURL := S "https://example.com", installGuide := none,
    models := [S "WDT780SAEM1"], brands := [S "Whirlpool"] }

def testEnv : App.Env := { items := [testItemRack], ragDocs := [S "zzz"], llm := none }

def chatIn (m a : String) : App.ChatIn :=
  { message := S m, part := none, model := none, appliance := S a }

-- ============================================================
-- Helper lemmas: association-list stores (Memory)
-- ============================================================

theorem find?_none_iff {α : Type} {p : α → Bool} {l : List α} :
    l.find? p = none ↔ ∀ x ∈ l, p x = false := by
  rw [List.find?_eq_none]
  simp

theorem any_eq_false_of_find?_none {α : Type} {p : α → Bool} {l : List α}
    (h : l.find? p = none) : l.any p = false := by
  rw [List.any_eq_false]
  intro x hx
  simp [find?_none_iff.mp h x hx]

theorem map_eq_self_of_fix {α : Type} {f : α → α} {l : List α}
    (h : ∀ x ∈ l, f x = x) : l.map f = l := by
  induction l with
  | nil => rfl
  | cons a l ih =>
    simp only [List.map_cons, h a (List.mem_cons_self a l)]
    rw [ih (fun x hx => h x (List.mem_cons_of_mem a hx))]

theorem storeLookup_nil (sid : Str) : G.storeLookup [] sid = none := rfl

theorem storeLookup_append_of_none (st l : G.MemStore) (sid : Str)
    (h : G.storeLookup st sid = none) :
    G.storeLookup (st ++ l) sid = G.storeLookup l sid := by
  unfold G.storeLookup at *
  induction st with
  | nil => simp
  | cons e st ih =>
    rcases he : (e.1 == sid) with _ | _
    · simp only [List.cons_append, List.find?_cons, he] at h ⊢
      exact ih h
    · simp [List.find?_cons, he] at h

theorem storeLookup_storeSet_self (st : G.MemStore) (sid : Str) (s' : G.Sess)
    (h : (G.storeLookup st sid).isSome) :
    G.storeLookup (G.storeSet st sid s') sid = some s' := by
  induction st with
  | nil => simp [G.storeLookup] at h
  | cons e st ih =>
    rcases he : (e.1 == sid) with _ | _
    · have hne : ¬ e.1 = sid := by simpa using he
      have h1 : G.storeSet (e :: st) sid s' = e :: G.storeSet st sid s' := by
        simp [G.storeSet, hne]
      rw [h1]
      have h2 : ∀ X : G.MemStore, G.storeLookup (e :: X) sid = G.storeLookup X sid := by
        intro X
        simp [G.storeLookup, List.find?_cons, he]
      rw [h2]
      exact ih (by rw [h2 st] at h; exact h)
    · have he' : e.1 = sid := by simpa using he
      have h1 : G.storeSet (e :: st) sid s' = (sid, s') :: G.storeSet st sid s' := by
        simp [G.storeSet, he']
      rw [h1]
      simp [G.storeLookup, List.find?_cons]

theorem storeSet_of_lookup_none (st : G.MemStore) (sid : Str) (s' : G.Sess)
    (h : G.storeLookup st sid = none) : G.storeSet st sid s' = st := by
  unfold G.storeLookup at h
  unfold G.storeSet
  apply map_eq_self_of_fix
  intro e he
  have : (e.1 == sid) = false := by
    have h2 := find?_none_iff.mp (Option.map_eq_none.mp h)
    exact h2 e he
  simp [this]

theorem sessUpdate_single (s : G.Sess) (k : Str) (v : Option Str) :
    G.sessUpdate s [(k, v)] = G.setIfKnown s k v := rfl

theorem setIfKnown_of_unknown (s : G.Sess) (k : Str) (v : Option Str)
    (h : s.find? (fun p => p.1 == k) = none) : G.setIfKnown s k v = s := by
  unfold G.setIfKnown
  rw [any_eq_false_of_find?_none h]
  simp

/-- Updating only the key `k` of a session that does not carry `k` leaves the
record without that key: the later `get` still lacks it. -/
theorem memUpdate_unknown_key (st : G.MemStore) (sid k : Str) (v : Option Str)
    (hd : G.defaultSess.find? (fun p => p.1 == k) = none)
    (hs : ∀ s, G.storeLookup st sid = some s → s.find? (fun p => p.1 == k) = none) :
    G.sessLookup (G.memGet (G.memUpdate st sid [(k, v)]) sid).2 k = none := by
  rcases hcase : G.storeLookup st sid with _ | s
  · have hupd : G.memUpdate st sid [(k, v)] = st ++ [(sid, G.defaultSess)] := by
      unfold G.memUpdate G.get_or_create
      rw [hcase]
      simp only [sessUpdate_single, setIfKnown_of_unknown _ _ _ hd]
      unfold G.storeSet
      rw [List.map_append]
      rw [map_eq_self_of_fix (l := st) (by
        intro e he
        have h2 := find?_none_iff.mp (Option.map_eq_none.mp hcase) e he
        simp [h2])]
      simp
    rw [hupd]
    unfold G.memGet G.get_or_create
    rw [storeLookup_append_of_none st _ sid hcase]
    have hl : G.storeLookup [(sid, G.defaultSess)] sid = some G.defaultSess := by
      simp [G.storeLookup]
    rw [hl]
    simp [G.sessLookup, hd]
  · have hnone := hs s hcase
    have hupd : G.memUpdate st sid [(k, v)] = G.storeSet st sid s := by
      unfold G.memUpdate G.get_or_create
      rw [hcase]
      simp only [sessUpdate_single, setIfKnown_of_unknown _ _ _ hnone]
    rw [hupd]
    unfold G.memGet G.get_or_create
    rw [storeLookup_storeSet_self st sid s (by simp [hcase])]
    simp [G.sessLookup, hnone]

-- ============================================================
-- C1 / C2 / C3: the session-memory slip around `last_switch_refused_for`
-- ============================================================

/-- C3: the code-side behaviour at the claim's failing input.  For every
session id on which no update has been performed, `SessionMemory.get`
succeeds and returns the snapshot — but the snapshot carries only the three
fields `last_intent`, `last_part`, `last_model` (present and null); the
fourth field claimed by the spec, `last_switch_refused_for`, is absent from
the record `_get_or_create` installs, so the claim's "four fields present
and null" is violated on its fourth conjunct. -/
theorem memory_get_fresh_three_nulls (st : G.MemStore) (sid : Str)
    (h : G.storeLookup st sid = none) :
    (G.memGet st sid).2 = G.defaultSess
    ∧ G.sessLookup (G.memGet st sid).2 (S "last_intent") = some none
    ∧ G.sessLookup (G.memGet st sid).2 (S "last_part") = some none
    ∧ G.sessLookup (G.memGet st sid).2 (S "last_model") = some none
    ∧ G.sessLookup (G.memGet st sid).2 (S "last_switch_refused_for") = none := by
  have h2 : G.memGet st sid = (st ++ [(sid, G.defaultSess)], G.defaultSess) := by
    unfold G.memGet G.get_or_create
    rw [h]
  rw [h2]
  exact ⟨rfl, rfl, rfl, rfl, rfl⟩

theorem memory_get_fresh_three_nulls_witness :
    G.storeLookup [] (S "demo") = none
    ∧ ((G.memGet [] (S "demo")).2 = G.defaultSess
    ∧ G.sessLookup (G.memGet [] (S "demo")).2 (S "last_intent") = some none
    ∧ G.sessLookup (G.memGet [] (S "demo")).2 (S "last_part") = some none
    ∧ G.sessLookup (G.memGet [] (S "demo")).2 (S "last_model") = some none
    ∧ G.sessLookup (G.memGet [] (S "demo")).2 (S "last_switch_refused_for") = none) :=
  ⟨by decide, memory_get_fresh_three_nulls [] (S "demo") (by decide)⟩

/-- C1: a refusal-marker turn returns the acknowledgement, performs no
retrieval and no LLM call — but it FAILS to record the refusal: because
`Memory.update` silently drops keys that are not already in the session
record and `_get_or_create` never installs `last_switch_refused_for`, the
returned memory snapshot still lacks the field (the claim says it is set to
the current appliance context).  The hypothesis `hs` confines the store to
records that do not already carry the key, which is every store the program
can build. -/
theorem chat_refusal_turn (env : App.Env) (inp : App.ChatIn) (sid : Str) (st : App.St)
    (hm : isSub (S "user refused switch") (lc (strip inp.message)) = true)
    (hs : ∀ s, G.storeLookup st.mem sid = some s →
        s.find? (fun p => p.1 == S "last_switch_refused_for") = none) :
    (App.chat env inp sid st).out.intent = S "ack_refuse"
    ∧ (App.chat env inp sid st).out.response
        = S "Got it — staying with your current "
          ++ (if inp.appliance = [] then S "dishwasher" else lc inp.appliance)
          ++ S " context."
    ∧ G.sessLookup (App.chat env inp sid st).out.memory (S "last_switch_refused_for") = none
    ∧ (App.chat env inp sid st).calls
        = { usedInstall := false, usedCompat := false, usedRag := false, usedLLM := false } := by
  unfold App.chat
  simp only [hm, if_true, true_and, and_true]
  exact memUpdate_unknown_key st.mem sid _ _ (by decide) hs

theorem chat_refusal_turn_witness :
    (isSub (S "user refused switch")
      (lc (strip (S "user refused switch"))) = true)
    ∧ ((App.chat envEmpty (chatIn "user refused switch" "dishwasher") (S "s")
          { mem := [], chat_memory := [] }).out.intent = S "ack_refuse"
    ∧ (App.chat envEmpty (chatIn "user refused switch" "dishwasher") (S "s")
          { mem := [], chat_memory := [] }).out.response
        = S "Got it — staying with your current "
          ++ (if (chatIn "user refused switch" "dishwasher").appliance = []
              then S "dishwasher" else lc (chatIn "user refused switch" "dishwasher").appliance)
          ++ S " context."
    ∧ G.sessLookup (App.chat envEmpty (chatIn "user refused switch" "dishwasher") (S "s")
          { mem := [], chat_memory := [] }).out.memory (S "last_switch_refused_for") = none
    ∧ (App.chat envEmpty (chatIn "user refused switch" "dishwasher") (S "s")
          { mem := [], chat_memory := [] }).calls
        = { usedInstall := false, usedCompat := false, usedRag := false, usedLLM := false }) :=
  ⟨by decide,
   chat_refusal_turn envEmpty (chatIn "user refused switch" "dishwasher") (S "s")
     { mem := [], chat_memory := [] } (by decide) (by decide)⟩

/-- C2: the code-side behaviour at the claim's failing input.  A refusal
recorded under context "refrigerator" (turn 1) is silently dropped by
`Memory.update`, so a later turn under context "dishwasher" that mentions
the refrigerator is answered with `switch_suggestion` again, instead of
proceeding to downstream handling as the claim states. -/
theorem chat_repeats_suggestion_after_refusal :
    (App.chat envEmpty (chatIn "user refused switch" "refrigerator") (S "s")
        { mem := [], chat_memory := [] }).out.intent = S "ack_refuse"
    ∧ (App.chat envEmpty (chatIn "my refrigerator is broken" "dishwasher") (S "s")
        (App.chat envEmpty (chatIn "user refused switch" "refrigerator") (S "s")
          { mem := [], chat_memory := [] }).st).out.intent = S "switch_suggestion" := by
  constructor
  · decide
  · decide

-- ============================================================
-- C4: RAGRetriever.search when both stages yield nothing
-- ============================================================

/-- C4 counterexample: a non-empty corpus on which both the weighted stage
and the Jaccard stage yield nothing makes `RAGService.search` return the
empty list — not the non-empty sentinel the claim asserts. -/
theorem rag_search_empty_counterexample :
    R.ragSearch [S "zzz"] (S "qqq") (S "xyz") 6 = [] := by decide

/-- C4 (amended): `RAGService.search` returns the non-empty sentinel
exactly when the corpus is empty; on a non-empty corpus, when the weighted
stage and the Jaccard fallback both yield nothing, the result is the empty
list. -/
theorem rag_search_sentinel_spec (docs : List Str) (query ctx : Str) (k : Nat) :
    (docs = [] → R.ragSearch docs query ctx k
        = [S "(Internal Error: No RAG documents loaded.)"])
    ∧ (docs ≠ [] → R.weightedStage docs query ctx = [] → R.jaccardStage docs query = [] →
        R.ragSearch docs query ctx k = []) := by
  constructor
  · intro h
    unfold R.ragSearch
    rw [if_pos h]
  · intro h hw hj
    unfold R.ragSearch
    rw [if_neg h]
    simp only [hw, hj, if_pos rfl]
    simp

theorem rag_search_sentinel_spec_witness :
    (([] : List Str) = [] → R.ragSearch [] (S "qqq") (S "xyz") 6
        = [S "(Internal Error: No RAG documents loaded.)"])
    ∧ ([S "zzz"] ≠ ([] : List Str)
        ∧ R.weightedStage [S "zzz"] (S "qqq") (S "xyz") = []
        ∧ R.jaccardStage [S "zzz"] (S "qqq") = []) :=
  ⟨(rag_search_sentinel_spec [] (S "qqq") (S "xyz") 6).1,
   by decide, by decide, by decide⟩

-- ============================================================
-- C5: the appliance-context weight override
-- ============================================================

/-- C5 counterexample: for the appliance context "oven" — absent from the
weight table — the weight used for the appended context term is 1.0, not
the 5.0 the claim asserts for every context. -/
theorem rag_weight_counterexample :
    (R.ragWeight (S "oven") (S "oven")).toRat = 1 ∧ (1 : ℚ) ≠ 5 := by
  constructor
  · have h : R.ragWeight (S "oven") (S "oven") = fq 1 1 := by decide
    rw [h]
    norm_num [Frac.toRat, fq]
  · norm_num

/-- C5 (amended): the appliance-context term's weight is overridden to 5.0
exactly when the context appears in the fixed weight table; a context
absent from the table keeps the default weight 1.0, and any other term
absent from the table also defaults to 1.0. -/
theorem rag_weight_spec (ctx : Str) :
    ((R.tableLookup ctx).isSome = true → (R.ragWeight ctx ctx).toRat = 5)
    ∧ ((R.tableLookup ctx).isSome = false → (R.ragWeight ctx ctx).toRat = 1)
    ∧ (∀ term, term ≠ ctx → R.tableLookup term = none → (R.ragWeight ctx term).toRat = 1) := by
  refine ⟨?_, ?_, ?_⟩
  · intro h
    unfold R.ragWeight
    rw [if_pos (by simp [h])]
    norm_num [Frac.toRat, fq]
  · intro h
    have hc : R.tableLookup ctx = none := by
      rcases hx : R.tableLookup ctx with _ | w
      · rfl
      · rw [hx] at h
        simp at h
    unfold R.ragWeight
    rw [if_neg (by simp [h]), hc]
    norm_num [Frac.toRat, fq, Option.getD]
  · intro term hne hnone
    unfold R.ragWeight
    rw [if_neg (by simp [hne]), hnone]
    norm_num [Frac.toRat, fq, Option.getD]

theorem rag_weight_spec_witness :
    ((R.tableLookup (S "dishwasher")).isSome = true
      → (R.ragWeight (S "dishwasher") (S "dishwasher")).toRat = 5)
    ∧ (R.tableLookup (S "dishwasher")).isSome = true :=
  ⟨(rag_weight_spec (S "dishwasher")).1, by decide⟩

-- ============================================================
-- C10: empty / whitespace-only catalog query
-- ============================================================

/-- C10: `Catalog.search` with an empty or whitespace-only query and no
explicit part argument returns the empty list — not the synthetic "no local
results" fallback entry. -/
theorem search_blank_query_empty (items : List C.Item) (query : Str)
    (h : strip query = []) :
    C.search items query none none = [] := by
  unfold C.search
  simp [h]

theorem search_blank_query_empty_witness :
    strip (S "   ") = [] ∧ C.search [testItemRack] (S "   ") none none = [] :=
  ⟨by decide, search_blank_query_empty [testItemRack] (S "   ") (by decide)⟩

-- ============================================================
-- C7: exact part-number match in Catalog.search
-- ============================================================

/-- C7 counterexample: the catalog holds an entry whose partNumber equals
the part-pattern token "PS11752778" of the query, but `re.search` takes the
*first* pattern match ("AB12345", not in the catalog), so the exact branch
misses and the scorer returns the synthetic fallback instead of the entry. -/
theorem search_exact_part_counterexample :
    (∃ w, w ∈ G.wordsOf (strip (S "AB12345 PS11752778")) ∧ C.partnumWord w = true
       ∧ lcs w = lcs testItemRack.partNumber)
    ∧ C.search [testItemRack] (S "AB12345 PS11752778") none none
        = [C.fallbackItem (S "AB12345 PS11752778") (S "AB12345 PS11752778")] := by
  constructor
  · exact ⟨S "PS11752778", by decide, by decide, by decide⟩
  · decide

/-- C7 (amended): when the *first* part-pattern match in the query is a
part number held by the catalog, `Catalog.search` returns exactly the
entries with that part number (case-insensitively), capped at 5, in
catalog order, bypassing the scorer. -/
theorem search_exact_part_first_match (items : List C.Item) (query w : Str)
    (hw : C.partnum_search (strip query) = some w)
    (hx : items.filter (fun p => lcs p.partNumber == lcs (upper w)) ≠ []) :
    C.search items query none none
      = (items.filter (fun p => lcs p.partNumber == lcs (upper w))).take 5 := by
  have hq : ¬ strip query = [] := by
    intro h
    rw [h] at hw
    simp [C.partnum_search, G.wordsOf, splitRuns, splitRunsF] at hw
  unfold C.search
  simp only [hw, if_neg hq]
  rw [if_pos hx]

theorem search_exact_part_first_match_witness :
    C.partnum_search (strip (S "PS11752778")) = some (S "PS11752778")
    ∧ ([testItemRack].filter
        (fun p => lcs p.partNumber == lcs (upper (S "PS11752778"))) ≠ [])
    ∧ C.search [testItemRack] (S "PS11752778") none none
      = ([testItemRack].filter
          (fun p => lcs p.partNumber == lcs (upper (S "PS11752778")))).take 5 :=
  ⟨by decide, by decide,
   search_exact_part_first_match [testItemRack] (S "PS11752778") (S "PS11752778")
     (by decide) (by decide)⟩

-- ============================================================
-- C6: part-search keyword precedence over installation/compatibility
-- ============================================================

theorem partSearchStep_shape (env : App.Env) (sid cur q : Str) (mem0 : G.MemStore)
    (mem : G.Sess) (cm1 : List (Str × List (Str × Str))) :
    (App.partSearchStep env sid cur q mem0 mem cm1).out.intent = S "part_search"
    ∧ (App.partSearchStep env sid cur q mem0 mem cm1).calls.usedInstall = false
    ∧ (App.partSearchStep env sid cur q mem0 mem cm1).calls.usedCompat = false := by
  unfold App.partSearchStep
  dsimp only
  split
  · split
    · exact ⟨rfl, rfl, rfl⟩
    · exact ⟨rfl, rfl, rfl⟩
  · exact ⟨rfl, rfl, rfl⟩

/-- C6: whenever the message contains a part-search keyword and the
part-search branch is reached (no refusal marker, and the mismatch guard
does not fire because either no other appliance is mentioned or its switch
was already refused), the router returns intent "part_search" and neither
`install_guide` nor `is_compatible` is invoked — even if the intent
classifier had assigned installation or compatibility.  In this embedding
`find_parts` is total, so "completes without an internal exception" holds
unconditionally. -/
theorem chat_part_search_precedence (env : App.Env) (inp : App.ChatIn) (sid : Str)
    (st : App.St)
    (hkw : App.part_search_keywords.any
        (fun k => isSub k (lc (strip inp.message))) = true)
    (hnm : isSub (S "user refused switch") (lc (strip inp.message)) = false)
    (hng : ∀ a, App.other_appliance_hint (strip inp.message)
          (if inp.appliance = [] then S "dishwasher" else lc inp.appliance) = some a →
        G.sessGetVal (G.memGet st.mem sid).2 (S "last_switch_refused_for") = some a) :
    (App.chat env inp sid st).out.intent = S "part_search"
    ∧ (App.chat env inp sid st).calls.usedInstall = false
    ∧ (App.chat env inp sid st).calls.usedCompat = false := by
  have hmain : ∀ mem0 mem cm1 lh, (App.chatMain env inp sid
      (if inp.appliance = [] then S "dishwasher" else lc inp.appliance)
      (strip inp.message) mem0 mem cm1 lh).out.intent = S "part_search"
      ∧ (App.chatMain env inp sid
      (if inp.appliance = [] then S "dishwasher" else lc inp.appliance)
      (strip inp.message) mem0 mem cm1 lh).calls.usedInstall = false
      ∧ (App.chatMain env inp sid
      (if inp.appliance = [] then S "dishwasher" else lc inp.appliance)
      (strip inp.message) mem0 mem cm1 lh).calls.usedCompat = false := by
    intro mem0 mem cm1 lh
    unfold App.chatMain
    simp only [hkw, if_true]
    exact partSearchStep_shape env sid _ _ mem0 mem cm1
  unfold App.chat
  simp only [hnm, Bool.false_eq_true, if_false]
  rcases halt : App.other_appliance_hint (strip inp.message)
      (if inp.appliance = [] then S "dishwasher" else lc inp.appliance) with _ | a
  · simp only [halt]
    exact hmain _ _ _ _
  · simp only [halt]
    rw [if_neg (by simp [hng a halt])]
    exact hmain _ _ _ _

theorem chat_part_search_precedence_witness :
    (App.part_search_keywords.any
        (fun k => isSub k (lc (strip (S "find rack")))) = true)
    ∧ ((App.chat testEnv (chatIn "find rack" "dishwasher") (S "s")
        { mem := [], chat_memory := [] }).out.intent = S "part_search"
    ∧ (App.chat testEnv (chatIn "find rack" "dishwasher") (S "s")
        { mem := [], chat_memory := [] }).calls.usedInstall = false
    ∧ (App.chat testEnv (chatIn "find rack" "dishwasher") (S "s")
        { mem := [], chat_memory := [] }).calls.usedCompat = false) :=
  ⟨by decide,
   chat_part_search_precedence testEnv (chatIn "find rack" "dishwasher") (S "s")
     { mem := [], chat_memory := [] } (by decide) (by decide)
     (fun a h => by
       rw [show App.other_appliance_hint (strip (chatIn "find rack" "dishwasher").message)
           (if (chatIn "find rack" "dishwasher").appliance = [] then S "dishwasher"
            else lc (chatIn "find rack" "dishwasher").appliance) = none from by decide] at h
       exact Option.noConfusion h)⟩

-- ============================================================
-- C9: Memory.update — frame, unknown keys, idempotence
-- ============================================================

theorem map_congr_fn {α β : Type} {f g : α → β} {l : List α}
    (h : ∀ x ∈ l, f x = g x) : l.map f = l.map g := by
  induction l with
  | nil => rfl
  | cons a l ih =>
    simp only [List.map_cons, h a (List.mem_cons_self a l)]
    rw [ih (fun x hx => h x (List.mem_cons_of_mem a hx))]

theorem any_map_fn {α β : Type} (l : List α) (f : α → β) (p : β → Bool) :
    (l.map f).any p = l.any (fun x => p (f x)) := by
  induction l with
  | nil => rfl
  | cons a l ih => simp [List.any_cons, ih]

theorem setIfKnown_any (s : G.Sess) (k : Str) (v : Option Str) (k' : Str) :
    (G.setIfKnown s k v).any (fun p => p.1 == k') = s.any (fun p => p.1 == k') := by
  unfold G.setIfKnown
  split
  · rw [any_map_fn]
    apply congrArg (List.any s)
    funext p
    by_cases hp : p.1 = k
    · simp [hp]
    · simp [hp]
  · rfl

theorem setIfKnown_of_any_false (s : G.Sess) (k : Str) (v : Option Str)
    (h : s.any (fun p => p.1 == k) = false) : G.setIfKnown s k v = s := by
  unfold G.setIfKnown
  rw [if_neg (by simp [h])]

theorem setIfKnown_of_any_true (s : G.Sess) (k : Str) (v : Option Str)
    (h : s.any (fun p => p.1 == k) = true) :
    G.setIfKnown s k v = s.map (fun p => if p.1 == k then (k, v) else p) := by
  unfold G.setIfKnown
  rw [if_pos h]

theorem sessLookup_cons (p : Str × Option Str) (s : G.Sess) (k : Str) :
    G.sessLookup (p :: s) k
      = if (p.1 == k) = true then some p.2 else G.sessLookup s k := by
  unfold G.sessLookup
  rcases hp : (p.1 == k) with _ | _ <;> simp [List.find?_cons, hp]

theorem lookup_of_any_false (s : G.Sess) (k : Str)
    (h : s.any (fun p => p.1 == k) = false) : G.sessLookup s k = none := by
  induction s with
  | nil => rfl
  | cons p s ih =>
    rw [List.any_cons] at h
    rw [sessLookup_cons, if_neg (by simp [Bool.or_eq_false_iff.mp h |>.1])]
    exact ih (Bool.or_eq_false_iff.mp h).2

theorem lookup_setIfKnown_self (s : G.Sess) (k : Str) (v : Option Str)
    (h : s.any (fun p => p.1 == k) = true) :
    G.sessLookup (G.setIfKnown s k v) k = some v := by
  rw [setIfKnown_of_any_true s k v h]
  induction s with
  | nil => simp at h
  | cons p s ih =>
    rw [List.map_cons, sessLookup_cons]
    rcases hp : (p.1 == k) with _ | _
    · rw [if_neg (by simp [hp])]
      exact ih (by simpa [List.any_cons, hp] using h)
    · rw [if_pos (by simp [hp])]
      simp [hp]

theorem lookup_setIfKnown_other (s : G.Sess) (k : Str) (v : Option Str) (k' : Str)
    (hne : k' ≠ k) :
    G.sessLookup (G.setIfKnown s k v) k' = G.sessLookup s k' := by
  rcases ha : s.any (fun p => p.1 == k) with _ | _
  · rw [setIfKnown_of_any_false s k v ha]
  · rw [setIfKnown_of_any_true s k v ha]
    clear ha
    induction s with
    | nil => rfl
    | cons p s ih =>
      rw [List.map_cons, sessLookup_cons, sessLookup_cons]
      by_cases hp : p.1 = k
      · have h1 : ¬ ((if (p.1 == k) = true then (k, v) else p).1 == k') = true := by
          simp [hp]
          exact fun h => hne h.symm
        have h2 : ¬ (p.1 == k') = true := by
          rw [hp]
          simp
          exact fun h => hne h.symm
        rw [if_neg h1, if_neg h2]
        exact ih
      · have hq : (if (p.1 == k) = true then (k, v) else p) = p := by simp [hp]
        rw [hq]
        rcases hc : (p.1 == k') with _ | _
        · rw [if_neg (by simp [hc]), if_neg (by simp [hc])]
          exact ih
        · rw [if_pos (by simp [hc]), if_pos (by simp [hc])]

theorem any_map_setIfKnown (s : G.Sess) (k k' : Str) (v : Option Str) :
    (s.map (fun p => if p.1 == k then (k, v) else p)).any (fun p => p.1 == k')
      = s.any (fun p => p.1 == k') := by
  rw [any_map_fn]
  apply congrArg (List.any s)
  funext p
  by_cases hp : p.1 = k
  · simp [hp]
  · simp [hp]

theorem setIfKnown_absorb (s : G.Sess) (k : Str) (v : Option Str) :
    G.setIfKnown (G.setIfKnown s k v) k v = G.setIfKnown s k v := by
  rcases ha : s.any (fun p => p.1 == k) with _ | _
  · rw [setIfKnown_of_any_false s k v ha, setIfKnown_of_any_false s k v ha]
  · have hb : (s.map (fun p => if p.1 == k then (k, v) else p)).any
        (fun p => p.1 == k) = true := by
      rw [any_map_setIfKnown]
      exact ha
    rw [setIfKnown_of_any_true s k v ha, setIfKnown_of_any_true _ k v hb, List.map_map]
    apply map_congr_fn
    intro p hp
    by_cases h1 : p.1 = k <;> simp [Function.comp, h1]

theorem setIfKnown_comm (s : G.Sess) (k k' : Str) (v v' : Option Str) (hne : k ≠ k') :
    G.setIfKnown (G.setIfKnown s k v) k' v' = G.setIfKnown (G.setIfKnown s k' v') k v := by
  rcases ha : s.any (fun p => p.1 == k) with _ | _ <;>
    rcases hb : s.any (fun p => p.1 == k') with _ | _
  · rw [setIfKnown_of_any_false s k v ha, setIfKnown_of_any_false s k' v' hb,
      setIfKnown_of_any_false s k v ha]
  · have h1 : (G.setIfKnown s k' v').any (fun p => p.1 == k) = false := by
      rw [setIfKnown_any]
      exact ha
    rw [setIfKnown_of_any_false s k v ha, setIfKnown_of_any_false _ k v h1]
  · have h1 : (G.setIfKnown s k v).any (fun p => p.1 == k') = false := by
      rw [setIfKnown_any]
      exact hb
    rw [setIfKnown_of_any_false s k' v' hb, setIfKnown_of_any_false _ k' v' h1]
  · have h1 : (s.map (fun p => if p.1 == k then (k, v) else p)).any
        (fun p => p.1 == k') = true := by
      rw [any_map_setIfKnown]
      exact hb
    have h2 : (s.map (fun p => if p.1 == k' then (k', v') else p)).any
        (fun p => p.1 == k) = true := by
      rw [any_map_setIfKnown]
      exact ha
    rw [setIfKnown_of_any_true s k v ha, setIfKnown_of_any_true s k' v' hb,
      setIfKnown_of_any_true _ k' v' h1, setIfKnown_of_any_true _ k v h2,
      List.map_map, List.map_map]
    apply map_congr_fn
    intro p hp
    by_cases h1 : p.1 = k
    · simp [Function.comp, h1, show ¬ (k = k') from hne]
    · by_cases h2 : p.1 = k'
      · simp [Function.comp, h1, h2, show ¬ (k' = k) from fun h => hne h.symm]
      · simp [Function.comp, h1, h2]

theorem sessUpdate_nil (s : G.Sess) : G.sessUpdate s [] = s := rfl

theorem sessUpdate_cons (s : G.Sess) (k : Str) (v : Option Str)
    (kvs : List (Str × Option Str)) :
    G.sessUpdate s ((k, v) :: kvs) = G.sessUpdate (G.setIfKnown s k v) kvs := rfl

theorem sessUpdate_any (s : G.Sess) (kvs : List (Str × Option Str)) (k' : Str) :
    (G.sessUpdate s kvs).any (fun p => p.1 == k') = s.any (fun p => p.1 == k') := by
  induction kvs generalizing s with
  | nil => rfl
  | cons kv kvs ih =>
    rcases kv with ⟨k, v⟩
    rw [sessUpdate_cons, ih, setIfKnown_any]

theorem setIfKnown_sessUpdate_comm (s : G.Sess) (kvs : List (Str × Option Str))
    (k : Str) (v : Option Str) (hk : k ∉ kvs.map Prod.fst) :
    G.setIfKnown (G.sessUpdate s kvs) k v = G.sessUpdate (G.setIfKnown s k v) kvs := by
  induction kvs generalizing s with
  | nil => rfl
  | cons kv kvs ih =>
    rcases kv with ⟨k0, v0⟩
    have h1 : k ≠ k0 ∧ k ∉ kvs.map Prod.fst := by simpa using hk
    rw [sessUpdate_cons, sessUpdate_cons, ih _ h1.2,
      setIfKnown_comm s k0 k v0 v (fun h => h1.1 h.symm)]

theorem sessUpdate_idem (s : G.Sess) (kvs : List (Str × Option Str))
    (hnd : (kvs.map Prod.fst).Nodup) :
    G.sessUpdate (G.sessUpdate s kvs) kvs = G.sessUpdate s kvs := by
  induction kvs generalizing s with
  | nil => rfl
  | cons kv kvs ih =>
    rcases kv with ⟨k, v⟩
    rw [show (((k, v) :: kvs).map Prod.fst) = k :: kvs.map Prod.fst from rfl] at hnd
    have hnodup := List.nodup_cons.mp hnd
    rw [sessUpdate_cons, sessUpdate_cons,
      setIfKnown_sessUpdate_comm _ _ _ _ hnodup.1, setIfKnown_absorb]
    exact ih _ hnodup.2

theorem lookup_sessUpdate_not_mem (s : G.Sess) (kvs : List (Str × Option Str))
    (k : Str) (hk : k ∉ kvs.map Prod.fst) :
    G.sessLookup (G.sessUpdate s kvs) k = G.sessLookup s k := by
  induction kvs generalizing s with
  | nil => rfl
  | cons kv kvs ih =>
    rcases kv with ⟨k0, v0⟩
    have h1 : k ≠ k0 ∧ k ∉ kvs.map Prod.fst := by simpa using hk
    rw [sessUpdate_cons, ih _ h1.2, lookup_setIfKnown_other _ _ _ _ h1.1]

theorem lookup_sessUpdate_known (s : G.Sess) (kvs : List (Str × Option Str))
    (k : Str) (v : Option Str) (hmem : (k, v) ∈ kvs)
    (hnd : (kvs.map Prod.fst).Nodup) (hany : s.any (fun p => p.1 == k) = true) :
    G.sessLookup (G.sessUpdate s kvs) k = some v := by
  induction kvs generalizing s with
  | nil => cases hmem
  | cons kv kvs ih =>
    rcases kv with ⟨k0, v0⟩
    rw [show (((k0, v0) :: kvs).map Prod.fst) = k0 :: kvs.map Prod.fst from rfl] at hnd
    have hnodup := List.nodup_cons.mp hnd
    rcases List.mem_cons.mp hmem with heq | htail
    · cases heq
      rw [sessUpdate_cons, lookup_sessUpdate_not_mem _ _ _ hnodup.1]
      exact lookup_setIfKnown_self s k v hany
    · rw [sessUpdate_cons]
      refine ih _ htail hnodup.2 ?_
      rw [setIfKnown_any]
      exact hany

theorem lookup_sessUpdate_unknown (s : G.Sess) (kvs : List (Str × Option Str))
    (k : Str) (h : s.any (fun p => p.1 == k) = false) :
    G.sessLookup (G.sessUpdate s kvs) k = none := by
  apply lookup_of_any_false
  rw [sessUpdate_any]
  exact h

theorem storeSet_storeSet (st : G.MemStore) (sid : Str) (v : G.Sess) :
    G.storeSet (G.storeSet st sid v) sid v = G.storeSet st sid v := by
  unfold G.storeSet
  rw [List.map_map]
  apply map_congr_fn
  intro e he
  by_cases h : e.1 = sid <;> simp [Function.comp, h]

theorem storeLookup_memUpdate (st : G.MemStore) (sid : Str)
    (kvs : List (Str × Option Str)) :
    G.storeLookup (G.memUpdate st sid kvs) sid
      = some (G.sessUpdate (G.get_or_create st sid).2 kvs) := by
  unfold G.memUpdate
  rcases hcase : G.storeLookup st sid with _ | s
  · have hp : G.get_or_create st sid = (st ++ [(sid, G.defaultSess)], G.defaultSess) := by
      unfold G.get_or_create
      rw [hcase]
    rw [hp]
    apply storeLookup_storeSet_self
    rw [storeLookup_append_of_none st _ sid hcase]
    simp [G.storeLookup]
  · have hp : G.get_or_create st sid = (st, s) := by
      unfold G.get_or_create
      rw [hcase]
    rw [hp]
    apply storeLookup_storeSet_self
    simp [hcase]

theorem memUpdate_eq (st : G.MemStore) (sid : Str) (kvs : List (Str × Option Str)) :
    G.memUpdate st sid kvs
      = G.storeSet (G.get_or_create st sid).1 sid
          (G.sessUpdate (G.get_or_create st sid).2 kvs) := rfl

theorem memUpdate_idem (st : G.MemStore) (sid : Str) (kvs : List (Str × Option Str))
    (hnd : (kvs.map Prod.fst).Nodup) :
    G.memUpdate (G.memUpdate st sid kvs) sid kvs = G.memUpdate st sid kvs := by
  have h1 := storeLookup_memUpdate st sid kvs
  have hgoc : G.get_or_create (G.memUpdate st sid kvs) sid
      = (G.memUpdate st sid kvs, G.sessUpdate (G.get_or_create st sid).2 kvs) := by
    unfold G.get_or_create
    rw [h1]
    rfl
  rw [memUpdate_eq (G.memUpdate st sid kvs) sid kvs, hgoc]
  dsimp only
  rw [sessUpdate_idem _ _ hnd]
  conv_lhs => rw [memUpdate_eq st sid kvs]
  rw [storeSet_storeSet]
  exact (memUpdate_eq st sid kvs).symm

/-- C9: `Memory.update` applies exactly the named fields (a named key
already present in the record receives its new value), silently ignores
unknown field names (an absent key stays absent), leaves every other stored
field unchanged, and is idempotent — both on the session record and on the
whole store.  The session record is the one `_get_or_create` yields for the
id (update creates it lazily, as in the source); `kvs` are the keyword
arguments of one `update` call, so their names are distinct. -/
theorem memory_update_spec (st : G.MemStore) (sid : Str)
    (kvs : List (Str × Option Str)) (hnd : (kvs.map Prod.fst).Nodup) :
    (∀ k v, (k, v) ∈ kvs →
        ((G.get_or_create st sid).2.any (fun p => p.1 == k)) = true →
        G.sessLookup (G.sessUpdate (G.get_or_create st sid).2 kvs) k = some v)
    ∧ (∀ k, (G.get_or_create st sid).2.any (fun p => p.1 == k) = false →
        G.sessLookup (G.sessUpdate (G.get_or_create st sid).2 kvs) k = none)
    ∧ (∀ k, k ∉ kvs.map Prod.fst →
        G.sessLookup (G.sessUpdate (G.get_or_create st sid).2 kvs) k
          = G.sessLookup (G.get_or_create st sid).2 k)
    ∧ G.sessUpdate (G.sessUpdate (G.get_or_create st sid).2 kvs) kvs
        = G.sessUpdate (G.get_or_create st sid).2 kvs
    ∧ G.memUpdate (G.memUpdate st sid kvs) sid kvs = G.memUpdate st sid kvs :=
  ⟨fun k v hmem hany => lookup_sessUpdate_known _ kvs k v hmem hnd hany,
   fun k hany => lookup_sessUpdate_unknown _ kvs k hany,
   fun k hk => lookup_sessUpdate_not_mem _ kvs k hk,
   sessUpdate_idem _ kvs hnd,
   memUpdate_idem st sid kvs hnd⟩

theorem memory_update_spec_witness :
    ((([(S "last_part", some (S "PS11752778")), (S "bogus_key", some (S "x"))].map
        Prod.fst).Nodup)
    ∧ G.sessLookup (G.sessUpdate (G.get_or_create [] (S "s")).2
        [(S "last_part", some (S "PS11752778")), (S "bogus_key", some (S "x"))])
        (S "last_part") = some (some (S "PS11752778"))
    ∧ G.sessLookup (G.sessUpdate (G.get_or_create [] (S "s")).2
        [(S "last_part", some (S "PS11752778")), (S "bogus_key", some (S "x"))])
        (S "bogus_key") = none
    ∧ G.memUpdate (G.memUpdate [] (S "s")
        [(S "last_part", some (S "PS11752778")), (S "bogus_key", some (S "x"))]) (S "s")
        [(S "last_part", some (S "PS11752778")), (S "bogus_key", some (S "x"))]
      = G.memUpdate [] (S "s")
        [(S "last_part", some (S "PS11752778")), (S "bogus_key", some (S "x"))]) := by
  refine ⟨by decide, ?_, ?_, ?_⟩
  · exact (memory_update_spec [] (S "s") _ (by decide)).1 _ _ (by decide) (by decide)
  · exact (memory_update_spec [] (S "s") _ (by decide)).2.1 _ (by decide)
  · exact (memory_update_spec [] (S "s") _ (by decide)).2.2.2.2

-- ============================================================
-- C8 toolkit (i): the rational meaning of Frac comparisons
-- ============================================================

theorem Frac.toRat_num_den (a : Frac) : a.toRat = (a.num : ℚ) / (a.den : ℚ) := rfl

theorem Frac.den_pos_cast {a : Frac} (h : 0 < a.den) : (0 : ℚ) < (a.den : ℚ) := by
  exact_mod_cast h

theorem Frac.blt_iff (a b : Frac) (ha : 0 < a.den) (hb : 0 < b.den) :
    (Frac.blt a b = true) ↔ a.toRat < b.toRat := by
  unfold Frac.blt Frac.toRat
  rw [decide_eq_true_eq,
    div_lt_div_iff₀ (Frac.den_pos_cast ha) (Frac.den_pos_cast hb)]
  constructor
  · intro h
    exact_mod_cast h
  · intro h
    exact_mod_cast h

theorem Frac.ble_iff (a b : Frac) (ha : 0 < a.den) (hb : 0 < b.den) :
    (Frac.ble a b = true) ↔ a.toRat ≤ b.toRat := by
  unfold Frac.ble Frac.toRat
  rw [decide_eq_true_eq,
    div_le_div_iff₀ (Frac.den_pos_cast ha) (Frac.den_pos_cast hb)]
  constructor
  · intro h
    exact_mod_cast h
  · intro h
    exact_mod_cast h

theorem Frac.toRat_add (a b : Frac) (ha : 0 < a.den) (hb : 0 < b.den) :
    (a.add b).toRat = a.toRat + b.toRat := by
  have ha' : (a.den : ℚ) ≠ 0 := ne_of_gt (Frac.den_pos_cast ha)
  have hb' : (b.den : ℚ) ≠ 0 := ne_of_gt (Frac.den_pos_cast hb)
  unfold Frac.add Frac.toRat
  push_cast
  field_simp

theorem Frac.den_add (a b : Frac) : (a.add b).den = a.den * b.den := rfl

theorem Frac.den_add_pos {a b : Frac} (ha : 0 < a.den) (hb : 0 < b.den) :
    0 < (a.add b).den := by
  rw [Frac.den_add]
  exact mul_pos ha hb

theorem fsum_den_pos (l : List Frac) (h : ∀ x ∈ l, 0 < x.den) : 0 < (fsum l).den := by
  induction l with
  | nil => decide
  | cons x xs ih =>
    exact Frac.den_add_pos (h x (List.mem_cons_self x xs))
      (ih (fun y hy => h y (List.mem_cons_of_mem x hy)))

theorem fsum_toRat (l : List Frac) (h : ∀ x ∈ l, 0 < x.den) :
    (fsum l).toRat = (l.map Frac.toRat).sum := by
  induction l with
  | nil => norm_num [fsum, Frac.toRat, Frac.ofInt]
  | cons x xs ih =>
    rw [show fsum (x :: xs) = x.add (fsum xs) from rfl,
      Frac.toRat_add x (fsum xs) (h x (List.mem_cons_self x xs))
        (fsum_den_pos xs (fun y hy => h y (List.mem_cons_of_mem x hy))),
      List.map_cons, List.sum_cons,
      ih (fun y hy => h y (List.mem_cons_of_mem x hy))]

-- ============================================================
-- C8 toolkit (ii): prefix / substring decomposition
-- ============================================================

theorem leadsWith_nil (h : Str) : leadsWith [] h = true := by
  cases h <;> rfl

theorem leadsWith_eq_nil {n : Str} (h : leadsWith n [] = true) : n = [] := by
  cases n with
  | nil => rfl
  | cons a as => simp [leadsWith] at h

theorem leadsWith_refl (n : Str) : leadsWith n n = true := by
  induction n with
  | nil => rfl
  | cons a as ih => simp [leadsWith, ih]

theorem leadsWith_append_right {n z : Str} (w : Str) (h : leadsWith n z = true) :
    leadsWith n (z ++ w) = true := by
  induction n generalizing z with
  | nil => exact leadsWith_nil _
  | cons a as ih =>
    cases z with
    | nil => simp [leadsWith] at h
    | cons b bs =>
      simp only [leadsWith, Bool.and_eq_true] at h ⊢
      exact ⟨h.1, ih h.2⟩

theorem leadsWith_of_le {n x y : Str} (h : leadsWith n (x ++ y) = true)
    (hle : n.length ≤ x.length) : leadsWith n x = true := by
  induction n generalizing x with
  | nil => exact leadsWith_nil _
  | cons a as ih =>
    cases x with
    | nil => simp at hle
    | cons b bs =>
      simp only [List.cons_append, leadsWith, Bool.and_eq_true] at h ⊢
      exact ⟨h.1, ih h.2 (by simpa using hle)⟩

theorem leadsWith_drop {n x y : Str} (h : leadsWith n (x ++ y) = true) :
    leadsWith (n.drop x.length) y = true := by
  induction x generalizing n with
  | nil => simpa using h
  | cons b bs ih =>
    cases n with
    | nil => exact leadsWith_nil _
    | cons a as =>
      simp only [List.cons_append, leadsWith, Bool.and_eq_true] at h
      simpa using ih h.2

theorem leadsWith_take {n z : Str} (h : leadsWith n z = true) :
    ∀ k, k ≤ n.length → n.take k = z.take k := by
  induction n generalizing z with
  | nil =>
    intro k hk
    simp at hk
    simp [hk]
  | cons a as ih =>
    intro k hk
    cases z with
    | nil => simp [leadsWith] at h
    | cons b bs =>
      simp only [leadsWith, Bool.and_eq_true, beq_iff_eq] at h
      cases k with
      | zero => simp
      | succ k =>
        simp only [List.take_succ_cons, h.1]
        rw [ih h.2 k (by simpa using hk)]

theorem leadsWith_mem {n z : Str} (h : leadsWith n z = true) : ∀ c ∈ n, c ∈ z := by
  induction n generalizing z with
  | nil => simp
  | cons a as ih =>
    cases z with
    | nil => simp [leadsWith] at h
    | cons b bs =>
      simp only [leadsWith, Bool.and_eq_true, beq_iff_eq] at h
      intro c hc
      rcases List.mem_cons.mp hc with rfl | hc
      · rw [h.1]
        exact List.mem_cons_self b bs
      · exact List.mem_cons_of_mem b (ih h.2 c hc)

theorem isSub_cons (n : Str) (c : Char) (t : Str) :
    isSub n (c :: t) = (leadsWith n (c :: t) || isSub n t) := rfl

theorem isSub_iff_exists (n h : Str) :
    isSub n h = true ↔ ∃ j, leadsWith n (h.drop j) = true := by
  induction h with
  | nil =>
    constructor
    · intro hs
      exact ⟨0, by simpa [isSub] using hs⟩
    · rintro ⟨j, hj⟩
      simpa [isSub] using hj
  | cons c t ih =>
    rw [isSub_cons, Bool.or_eq_true]
    constructor
    · rintro (hl | hs)
      · exact ⟨0, by simpa using hl⟩
      · obtain ⟨j, hj⟩ := ih.mp hs
        exact ⟨j + 1, by simpa using hj⟩
    · rintro ⟨j, hj⟩
      cases j with
      | zero => exact Or.inl (by simpa using hj)
      | succ j => exact Or.inr (ih.mpr ⟨j, by simpa using hj⟩)

theorem isSub_nil_left (h : Str) : isSub [] h = true := by
  cases h with
  | nil => rfl
  | cons c t => rw [isSub_cons, leadsWith_nil]; rfl

theorem isSub_append_left {n x : Str} (y : Str) (h : isSub n x = true) :
    isSub n (x ++ y) = true := by
  obtain ⟨j, hj⟩ := (isSub_iff_exists n x).mp h
  by_cases hjx : j ≤ x.length
  · refine (isSub_iff_exists n (x ++ y)).mpr ⟨j, ?_⟩
    rw [List.drop_append_of_le_length hjx]
    exact leadsWith_append_right y hj
  · have : x.drop j = [] := by
      rw [List.drop_eq_nil_iff]
      omega
    rw [this] at hj
    have := leadsWith_eq_nil hj
    subst this
    exact isSub_nil_left _
  
theorem isSub_append_right {n : Str} (x : Str) {y : Str} (h : isSub n y = true) :
    isSub n (x ++ y) = true := by
  induction x with
  | nil => simpa using h
  | cons c t ih =>
    rw [List.cons_append, isSub_cons, ih]
    simp

theorem isSub_self (n : Str) : isSub n n = true := by
  cases n with
  | nil => rfl
  | cons c t => rw [isSub_cons, leadsWith_refl]; rfl

theorem isSub_mem {n h : Str} (hs : isSub n h = true) : ∀ c ∈ n, c ∈ h := by
  obtain ⟨j, hj⟩ := (isSub_iff_exists n h).mp hs
  intro c hc
  exact List.drop_subset j h (leadsWith_mem hj c hc)

/-- Decomposition of a substring occurrence across an append: the needle
lies in the left part, lies in the right part, or straddles the boundary
(with its first `i` characters inside the left part and the rest a prefix
of the right part). -/
theorem isSub_append_cases {n : Str} (x y : Str) (h : isSub n (x ++ y) = true) :
    isSub n x = true ∨ isSub n y = true
    ∨ ∃ i, 0 < i ∧ i < n.length ∧ (∀ c ∈ n.take i, c ∈ x)
        ∧ leadsWith (n.drop i) y = true := by
  obtain ⟨j, hj⟩ := (isSub_iff_exists n (x ++ y)).mp h
  by_cases hjx : x.length ≤ j
  · right; left
    refine (isSub_iff_exists n y).mpr ⟨j - x.length, ?_⟩
    rw [show j = x.length + (j - x.length) from by omega, List.drop_append] at hj
    exact hj
  · push_neg at hjx
    rw [List.drop_append_of_le_length (by omega)] at hj
    by_cases hn : n.length ≤ (x.drop j).length
    · left
      exact (isSub_iff_exists n x).mpr ⟨j, leadsWith_of_le hj hn⟩
    · push_neg at hn
      right; right
      refine ⟨(x.drop j).length, by simp [List.length_drop]; omega, hn, ?_, leadsWith_drop hj⟩
      intro c hc
      rw [leadsWith_take hj _ (le_of_lt hn), List.take_append_of_le_length (le_refl _),
        List.take_length] at hc
      exact List.drop_subset j x hc

-- ============================================================
-- C8 toolkit (iii): strip / lower-casing decomposition
-- ============================================================

theorem isSub_nil_right {n : Str} (h : n ≠ []) : isSub n [] = false := by
  cases n with
  | nil => exact absurd rfl h
  | cons a as => rfl

theorem toLower_of_WS {c : Char} (h : isWS c = true) : c.toLower = c := by
  have h4 : c = ' ' ∨ c = '\t' ∨ c = '\r' ∨ c = '\n' := by
    have : (c = ' ' || c = '\t' || c = '\r' || c = '\n') = true := h
    simpa [Bool.or_eq_true, decide_eq_true_eq, or_assoc] using this
  rcases h4 with rfl | rfl | rfl | rfl <;> rfl

theorem lc_of_WS {w : Str} (h : ∀ c ∈ w, isWS c = true) : lc w = w :=
  map_eq_self_of_fix (fun c hc => toLower_of_WS (h c hc))

theorem lc_append (x y : Str) : lc (x ++ y) = lc x ++ lc y := List.map_append _ x y

theorem stripR_append_nonWS (x : Str) {b : Str} (hb : b ≠ [])
    (hbc : ∀ c ∈ b, isWS c = false) : stripR (x ++ b) = x ++ b := by
  unfold stripR
  rw [List.reverse_append]
  cases hrev : b.reverse with
  | nil => exact absurd (List.reverse_eq_nil_iff.mp hrev) hb
  | cons c t =>
    have hc : c ∈ b := by
      rw [← List.mem_reverse, hrev]
      exact List.mem_cons_self c t
    rw [List.cons_append, List.dropWhile_cons, hbc c hc]
    simp only [Bool.false_eq_true, if_false, List.reverse_cons, List.reverse_append,
      List.reverse_reverse]
    rw [show b = t.reverse ++ [c] from by rw [← List.reverse_reverse b, hrev, List.reverse_cons]]
    simp

theorem stripL_eq_strip_append (q : Str) :
    ∃ w, (∀ c ∈ w, isWS c = true) ∧ stripL q = strip q ++ w := by
  refine ⟨((stripL q).reverse.takeWhile isWS).reverse, ?_, ?_⟩
  · intro c hc
    rw [List.mem_reverse] at hc
    exact List.mem_takeWhile_imp hc
  · show stripL q = stripR (stripL q) ++ ((stripL q).reverse.takeWhile isWS).reverse
    unfold stripR
    rw [← List.reverse_append, List.takeWhile_append_dropWhile, List.reverse_reverse]

theorem stripL_all_WS {q : Str} (h : stripL q = []) : ∀ c ∈ q, isWS c = true := by
  induction q with
  | nil => simp
  | cons c cs ih =>
    unfold stripL at h ih
    rw [List.dropWhile_cons] at h
    by_cases hc : isWS c = true
    · intro d hd
      rcases List.mem_cons.mp hd with rfl | hd
      · exact hc
      · exact ih (by simpa [hc] using h) d hd
    · rw [if_neg (by simp [hc])] at h
      exact absurd h (by simp)

theorem stripL_cons_of_WS {c : Char} (h : isWS c = true) (q : Str) :
    stripL (c :: q) = stripL q := by
  unfold stripL
  rw [List.dropWhile_cons, if_pos h]

theorem stripL_append_of_ne {q : Str} (h : stripL q ≠ []) (z : Str) :
    stripL (q ++ z) = stripL q ++ z := by
  unfold stripL at h ⊢
  rw [List.dropWhile_append]
  simp only [List.isEmpty_iff]
  rw [if_neg h]

theorem stripL_append_of_nil {q : Str} (h : stripL q = []) (z : Str) :
    stripL (q ++ z) = stripL z := by
  unfold stripL at h ⊢
  rw [List.dropWhile_append]
  simp [h]

/-- Decomposing `_lc` of `query + " " + b` (for a needle-friendly `b`: nonempty,
no whitespace, already lower-case): a — possibly empty — all-whitespace
separator appears between `_lc(query)` and `b`, and it is empty only when
`_lc(query)` is itself empty. -/
theorem lcs_append_sep (q : Str) {b : Str} (hb : b ≠ [])
    (hbc : ∀ c ∈ b, isWS c = false) (hlb : lc b = b) :
    ∃ w, (∀ c ∈ w, isWS c = true) ∧ lcs (q ++ ' ' :: b) = lcs q ++ w ++ b
      ∧ (w = [] → lcs q = []) := by
  by_cases h0 : stripL q = []
  · refine ⟨[], ?_, ?_, ?_⟩
    · simp
    · have h1 : stripL (q ++ ' ' :: b) = b := by
        rw [stripL_append_of_nil h0, stripL_cons_of_WS (by rfl)]
        cases hbv : b with
        | nil => exact absurd hbv hb
        | cons c t =>
          unfold stripL
          rw [List.dropWhile_cons, hbc c (by rw [hbv]; exact List.mem_cons_self c t)]
          simp
      have h2 : strip (q ++ ' ' :: b) = b := by
        unfold strip
        rw [h1, show b = [] ++ b from rfl, stripR_append_nonWS [] hb hbc]
      have h3 : strip q = [] := by
        unfold strip
        rw [h0]
        rfl
      unfold lcs
      rw [h2, h3, hlb]
      rfl
    · intro _
      unfold lcs strip
      rw [h0]
      rfl
  · obtain ⟨w0, hw0, hsl⟩ := stripL_eq_strip_append q
    refine ⟨lc w0 ++ [' '], ?_, ?_, ?_⟩
    · intro c hc
      rcases List.mem_append.mp hc with hc | hc
      · rw [lc_of_WS hw0] at hc
        exact hw0 c hc
      · rcases List.mem_singleton.mp hc with rfl
        rfl
    · have h1 : stripL (q ++ ' ' :: b) = stripL q ++ ' ' :: b :=
        stripL_append_of_ne h0 _
      have h2 : strip (q ++ ' ' :: b) = stripL q ++ ' ' :: b := by
        unfold strip
        rw [h1, show stripL q ++ ' ' :: b = (stripL q ++ [' ']) ++ b by simp,
          stripR_append_nonWS _ hb hbc]
      unfold lcs
      rw [h2, hsl]
      show lc ((strip q ++ w0) ++ ' ' :: b) = (lc (strip q) ++ (lc w0 ++ [' '])) ++ b
      rw [show (strip q ++ w0) ++ ' ' :: b = strip q ++ (w0 ++ ([' '] ++ b)) by simp,
        lc_append, lc_append, lc_append, hlb, show lc [' '] = [' '] from rfl]
      simp
    · intro hcon
      exact absurd hcon (by simp)

-- ============================================================
-- C8 toolkit (iv): substring across a whitespace separator
-- ============================================================

theorem leadsWith_wsy {w : Str} (hw : ∀ c ∈ w, isWS c = true) {a : Char} {as y : Str}
    (ha : isWS a = false) (h : leadsWith (a :: as) (w ++ y) = true) :
    leadsWith (a :: as) y = true := by
  induction w with
  | nil => simpa using h
  | cons c w' ih =>
    simp only [List.cons_append, leadsWith, Bool.and_eq_true, beq_iff_eq] at h
    rcases h with ⟨rfl, _⟩
    exact absurd (hw a (List.mem_cons_self a w')) (by simp [ha])

/-- A needle with no whitespace cannot cross a nonempty whitespace separator:
`n in (x + w + y)` is exactly `n in x` or `n in y`. -/
theorem isSub_ws_mid {n : Str} (hn : n ≠ []) (hnc : ∀ c ∈ n, isWS c = false)
    {w : Str} (hw : ∀ c ∈ w, isWS c = true) (hwne : w ≠ []) (x y : Str) :
    isSub n (x ++ w ++ y) = (isSub n x || isSub n y) := by
  rw [Bool.eq_iff_iff, Bool.or_eq_true]
  constructor
  · intro h
    rw [show x ++ w ++ y = x ++ (w ++ y) by simp] at h
    rcases isSub_append_cases x (w ++ y) h with hx | hm | ⟨i, hi0, hilt, _, hlw⟩
    · exact Or.inl hx
    · rcases isSub_append_cases w y hm with hw' | hy | ⟨i, hi0, hilt, htk, _⟩
      · cases n with
        | nil => exact absurd rfl hn
        | cons a as =>
          have : a ∈ w := isSub_mem hw' a (List.mem_cons_self a as)
          exact absurd (hw a this) (by simp [hnc a (List.mem_cons_self a as)])
      · exact Or.inr hy
      · cases n with
        | nil => exact absurd rfl hn
        | cons a as =>
          have ha : a ∈ (a :: as).take i := by
            cases i with
            | zero => omega
            | succ i => simp [List.take_succ_cons]
          have : a ∈ w := htk a ha
          exact absurd (hw a this) (by simp [hnc a (List.mem_cons_self a as)])
    · cases hd : n.drop i with
      | nil =>
        have : n.length ≤ i := by
          have := congrArg List.length hd
          simp [List.length_drop] at this
          omega
        omega
      | cons a as =>
        have ham : a ∈ n := by
          have : a ∈ n.drop i := by rw [hd]; exact List.mem_cons_self a as
          exact List.drop_subset i n this
        rw [hd] at hlw
        cases w with
        | nil => exact absurd rfl hwne
        | cons c w' =>
          simp only [List.cons_append, leadsWith, Bool.and_eq_true, beq_iff_eq] at hlw
          rcases hlw with ⟨rfl, _⟩
          exact absurd (hw a (List.mem_cons_self a w')) (by simp [hnc a ham])
  · rintro (hx | hy)
    · rw [show x ++ w ++ y = x ++ (w ++ y) by simp]
      exact isSub_append_left _ hx
    · exact isSub_append_right _ hy

/-- `isSub` through `_lc(query + " " + brandlike)` for a whitespace-free
needle: it reduces to an occurrence in `_lc(query)` or one in the appended
word. -/
theorem isSub_lcs_append {n : Str} (hn : n ≠ []) (hnc : ∀ c ∈ n, isWS c = false)
    (q : Str) {b : Str} (hb : b ≠ []) (hbc : ∀ c ∈ b, isWS c = false)
    (hlb : lc b = b) :
    isSub n (lcs (q ++ ' ' :: b)) = (isSub n (lcs q) || isSub n b) := by
  obtain ⟨w, hw, heq, hnil⟩ := lcs_append_sep q hb hbc hlb
  rw [heq]
  cases hwv : w with
  | nil =>
    rw [hnil hwv]
    simp only [List.nil_append, List.append_nil]
    rw [isSub_nil_right hn]
    simp
  | cons c w' =>
    rw [← hwv]
    exact isSub_ws_mid hn hnc hw (by simp [hwv]) _ _

-- ============================================================
-- C8 toolkit (v): runs of token characters across the separator
-- ============================================================

theorem splitRunsF_nil (p : Char → Bool) (f : Nat) : splitRunsF p f [] = [] := by
  cases f <;> rfl

theorem splitRuns_nil (p : Char → Bool) : splitRuns p [] = [] := rfl

theorem splitRunsF_congr (p : Char → Bool) :
    ∀ f g (s : Str), s.length ≤ f → s.length ≤ g → splitRunsF p f s = splitRunsF p g s := by
  intro f
  induction f with
  | zero =>
    intro g s hf _
    have : s = [] := List.length_eq_zero.mp (Nat.le_zero.mp hf)
    subst this
    rw [splitRunsF_nil, splitRunsF_nil]
  | succ f ih =>
    intro g s hf hg
    cases s with
    | nil => rw [splitRunsF_nil, splitRunsF_nil]
    | cons c cs =>
      cases g with
      | zero => simp at hg
      | succ g =>
        show (if p c then (c :: cs.takeWhile p) :: splitRunsF p f (cs.dropWhile p)
              else splitRunsF p f cs)
          = (if p c then (c :: cs.takeWhile p) :: splitRunsF p g (cs.dropWhile p)
              else splitRunsF p g cs)
        have hlen : cs.length ≤ f := by simpa using hf
        have hleng : cs.length ≤ g := by simpa using hg
        have hdrop := (List.dropWhile_sublist (l := cs) (p := p)).length_le
        by_cases hc : p c = true
        · rw [if_pos hc, if_pos hc, ih g _ (le_trans hdrop hlen) (le_trans hdrop hleng)]
        · rw [if_neg (by simp [hc]), if_neg (by simp [hc]), ih g cs hlen hleng]

theorem splitRuns_cons_neg {p : Char → Bool} {c : Char} {cs : Str} (hc : p c = false) :
    splitRuns p (c :: cs) = splitRuns p cs := by
  show splitRunsF p (cs.length + 1) (c :: cs) = splitRunsF p cs.length cs
  rw [show splitRunsF p (cs.length + 1) (c :: cs)
      = if p c then (c :: cs.takeWhile p) :: splitRunsF p cs.length (cs.dropWhile p)
        else splitRunsF p cs.length cs from rfl, if_neg (by simp [hc])]

theorem splitRuns_cons_pos {p : Char → Bool} {c : Char} {cs : Str} (hc : p c = true) :
    splitRuns p (c :: cs)
      = (c :: cs.takeWhile p) :: splitRuns p (cs.dropWhile p) := by
  show splitRunsF p (cs.length + 1) (c :: cs)
    = (c :: cs.takeWhile p) :: splitRunsF p (cs.dropWhile p).length (cs.dropWhile p)
  rw [show splitRunsF p (cs.length + 1) (c :: cs)
      = if p c then (c :: cs.takeWhile p) :: splitRunsF p cs.length (cs.dropWhile p)
        else splitRunsF p cs.length cs from rfl, if_pos hc]
  exact congrArg _ (splitRunsF_congr p cs.length _ _
    (List.dropWhile_sublist (l := cs) (p := p)).length_le le_rfl)

theorem splitRuns_sep_left {p : Char → Bool} {w : Str} (hw : ∀ c ∈ w, p c = false)
    (y : Str) : splitRuns p (w ++ y) = splitRuns p y := by
  induction w with
  | nil => rfl
  | cons c w' ih =>
    rw [List.cons_append, splitRuns_cons_neg (hw c (List.mem_cons_self c w'))]
    exact ih (fun d hd => hw d (List.mem_cons_of_mem c hd))

theorem takeWhile_all {p : Char → Bool} : ∀ {l : Str}, (∀ c ∈ l, p c = true) →
    l.takeWhile p = l := by
  intro l
  induction l with
  | nil => intro _; rfl
  | cons a l' ih =>
    intro h
    rw [List.takeWhile_cons, if_pos (h a (List.mem_cons_self a l')),
      ih (fun d hd => h d (List.mem_cons_of_mem a hd))]

theorem dropWhile_all {p : Char → Bool} : ∀ {l : Str}, (∀ c ∈ l, p c = true) →
    l.dropWhile p = [] := by
  intro l
  induction l with
  | nil => intro _; rfl
  | cons a l' ih =>
    intro h
    rw [List.dropWhile_cons, if_pos (h a (List.mem_cons_self a l'))]
    exact ih (fun d hd => h d (List.mem_cons_of_mem a hd))

theorem splitRuns_all_pos {p : Char → Bool} {b : Str} (hb : b ≠ [])
    (hbp : ∀ c ∈ b, p c = true) : splitRuns p b = [b] := by
  cases b with
  | nil => exact absurd rfl hb
  | cons c cs =>
    rw [splitRuns_cons_pos (hbp c (List.mem_cons_self c cs)),
      takeWhile_all (fun d hd => hbp d (List.mem_cons_of_mem c hd)),
      dropWhile_all (fun d hd => hbp d (List.mem_cons_of_mem c hd)), splitRuns_nil]

theorem takeWhile_append_negHead {p : Char → Bool} {d : Char} (hd : p d = false)
    (x z' : Str) : (x ++ d :: z').takeWhile p = x.takeWhile p := by
  induction x with
  | nil => simp [List.takeWhile_cons, hd]
  | cons a x' ih =>
    by_cases ha : p a = true
    · simp only [List.cons_append, List.takeWhile_cons, ha, if_true]
      rw [ih]
    · simp [List.takeWhile_cons, ha]

theorem dropWhile_append_negHead {p : Char → Bool} {d : Char} (hd : p d = false)
    (x z' : Str) : (x ++ d :: z').dropWhile p = x.dropWhile p ++ d :: z' := by
  rw [List.dropWhile_append]
  cases hE : (List.dropWhile p x).isEmpty with
  | true =>
    rw [List.isEmpty_iff] at hE
    rw [hE]
    simp [List.dropWhile_cons, hd]
  | false => simp [hE]

/-- Splitting into runs ignores everything before/after a run-breaking
separator: `splitRuns p (x ++ w ++ y)` is the runs of `x` followed by the
runs of `y` whenever `w` is a nonempty block of non-`p` characters. -/
theorem splitRuns_append_sep {p : Char → Bool} {w : Str} (hw : ∀ c ∈ w, p c = false)
    (hwne : w ≠ []) (y x : Str) :
    splitRuns p (x ++ w ++ y) = splitRuns p x ++ splitRuns p y := by
  have key : ∀ n (x : Str), x.length ≤ n →
      splitRuns p (x ++ w ++ y) = splitRuns p x ++ splitRuns p y := by
    intro n
    induction n with
    | zero =>
      intro x hx
      have hx0 : x = [] := List.length_eq_zero.mp (Nat.le_zero.mp hx)
      subst hx0
      simpa using splitRuns_sep_left hw y
    | succ n ih =>
      intro x hx
      cases x with
      | nil => simpa using splitRuns_sep_left hw y
      | cons c x' =>
        cases hwv : w with
        | nil => exact absurd hwv hwne
        | cons d w' =>
          have hd : p d = false := hw d (by rw [hwv]; exact List.mem_cons_self d w')
          have hlen : x'.length ≤ n := by simpa using hx
          by_cases hc : p c = true
          · simp only [List.cons_append, List.append_assoc]
            rw [splitRuns_cons_pos hc, splitRuns_cons_pos hc,
              takeWhile_append_negHead hd, dropWhile_append_negHead hd]
            have hrec := ih (x'.dropWhile p)
              (le_trans (List.dropWhile_sublist (l := x') (p := p)).length_le hlen)
            rw [hwv] at hrec
            simp only [List.cons_append, List.append_assoc] at hrec
            rw [hrec]
            simp [List.cons_append]
          · simp only [List.cons_append, List.append_assoc]
            rw [splitRuns_cons_neg (by simpa using hc),
              splitRuns_cons_neg (by simpa using hc)]
            have hrec := ih x' hlen
            rw [hwv] at hrec
            simp only [List.cons_append, List.append_assoc] at hrec
            exact hrec
  exact key x.length x le_rfl

theorem leadsWith_takeWhile (p : Char → Bool) : ∀ l : Str,
    leadsWith (l.takeWhile p) l = true := by
  intro l
  induction l with
  | nil => rfl
  | cons a l' ih =>
    rw [List.takeWhile_cons]
    by_cases ha : p a = true
    · rw [if_pos ha]
      simp only [leadsWith, beq_self_eq_true, Bool.true_and]
      exact ih
    · rw [if_neg (by simp [ha])]
      rfl

/-- Every run produced by `splitRuns` occurs as a substring of the scanned
text. -/
theorem mem_splitRuns_isSub {p : Char → Bool} :
    ∀ (s t : Str), t ∈ splitRuns p s → isSub t s = true := by
  have key : ∀ n (s : Str), s.length ≤ n → ∀ t, t ∈ splitRuns p s → isSub t s = true := by
    intro n
    induction n with
    | zero =>
      intro s hs t ht
      have : s = [] := List.length_eq_zero.mp (Nat.le_zero.mp hs)
      subst this
      simp [splitRuns_nil] at ht
    | succ n ih =>
      intro s hs t ht
      cases s with
      | nil => simp [splitRuns_nil] at ht
      | cons c cs =>
        have hlen : cs.length ≤ n := by simpa using hs
        by_cases hc : p c = true
        · rw [splitRuns_cons_pos hc] at ht
          rcases List.mem_cons.mp ht with rfl | ht
          · rw [isSub_cons, Bool.or_eq_true]
            refine Or.inl ?_
            simp only [leadsWith, beq_self_eq_true, Bool.true_and]
            exact leadsWith_takeWhile p cs
          · have hsub : isSub t (cs.dropWhile p) = true := ih _
              (le_trans (List.dropWhile_sublist (l := cs) (p := p)).length_le hlen) t ht
            have : isSub t cs = true := by
              rw [show cs = cs.takeWhile p ++ cs.dropWhile p from
                (List.takeWhile_append_dropWhile p cs).symm]
              exact isSub_append_right _ hsub
            rw [isSub_cons, this]
            simp
        · rw [splitRuns_cons_neg (by simpa using hc)] at ht
          rw [isSub_cons, ih cs hlen t ht]
          simp
  exact fun s t ht => key s.length s le_rfl t ht

theorem dedup_append_not_mem {α : Type} [DecidableEq α] {b : α} :
    ∀ l : List α, b ∉ l → (l ++ [b]).dedup = l.dedup ++ [b] := by
  intro l
  induction l with
  | nil => intro _; simp
  | cons x xs ih =>
    intro hb
    have hxb : x ≠ b := fun h => hb (h ▸ List.mem_cons_self x xs)
    have hbxs : b ∉ xs := fun h => hb (List.mem_cons_of_mem x h)
    by_cases hx : x ∈ xs
    · rw [List.cons_append, List.dedup_cons_of_mem (by simp [hx]),
        List.dedup_cons_of_mem hx]
      exact ih hbxs
    · rw [List.cons_append, List.dedup_cons_of_not_mem (by simp [hx, hxb]),
        List.dedup_cons_of_not_mem hx, ih hbxs, List.cons_append]

-- ============================================================
-- C8 toolkit (vi): decidable facts about the concrete keyword sets
-- ============================================================

theorem WS_cases {c : Char} (h : isWS c = true) :
    c = ' ' ∨ c = '\t' ∨ c = '\r' ∨ c = '\n' := by
  have hb : (c = ' ' || c = '\t' || c = '\r' || c = '\n') = true := h
  simpa [Bool.or_eq_true, decide_eq_true_eq, or_assoc] using hb

theorem isTokChar_of_WS {c : Char} (h : isWS c = true) : C.isTokChar c = false := by
  rcases WS_cases h with rfl | rfl | rfl | rfl <;> decide

/-- The brand literals are nonempty, whitespace-free, lower-case, made of
token characters, and round-trip through `capitalize` + `_lc`. -/
theorem brand_facts : ∀ b ∈ C.BRANDS, b ≠ [] ∧ (∀ c ∈ b, isWS c = false)
    ∧ lc b = b ∧ (∀ c ∈ b, C.isTokChar c = true) ∧ lcs (pyCapitalize b) = b := by
  decide

/-- No brand literal occurs inside a different brand literal. -/
theorem brand_unique_sub : ∀ x ∈ C.BRANDS, ∀ z ∈ C.BRANDS,
    isSub x z = true → x = z := by
  decide

/-- No appliance keyword of `_guess_appliance` occurs inside any brand
literal, and no brand starts the tail word of `"dish washer"`. -/
theorem appl_kw_facts : ∀ bb ∈ C.BRANDS,
    isSub (S "dishwasher") bb = false ∧ isSub (S "refrigerator") bb = false
    ∧ isSub (S "fridge") bb = false ∧ isSub (S "freezer") bb = false
    ∧ isSub (S "dish washer") bb = false ∧ leadsWith (S "washer") bb = false := by
  decide

/-- The `CATEGORY_KEYS` keywords are nonempty, whitespace-free, and none
occurs inside any brand literal. -/
theorem cat_kw_facts : ∀ ck ∈ C.CATEGORY_KEYS, ∀ kw ∈ ck.2,
    kw ≠ [] ∧ (∀ c ∈ kw, isWS c = false) ∧ ∀ bb ∈ C.BRANDS, isSub kw bb = false := by
  decide

theorem find?_unique_mem {α : Type} {p : α → Bool} {b : α} :
    ∀ l : List α, b ∈ l → p b = true → (∀ x ∈ l, p x = true → x = b) →
      l.find? p = some b := by
  intro l
  induction l with
  | nil => intro h; simp at h
  | cons c l' ih =>
    intro hb hp huniq
    by_cases hc : p c = true
    · rw [List.find?_cons_of_pos _ hc, huniq c (List.mem_cons_self c l') hc]
    · rw [List.find?_cons_of_neg _ (by simp [hc])]
      have hbl : b ∈ l' := by
        rcases List.mem_cons.mp hb with rfl | h
        · exact absurd hp hc
        · exact h
      exact ih hbl hp (fun x hx hpx => huniq x (List.mem_cons_of_mem c hx) hpx)

-- ============================================================
-- C8 toolkit (vii): the four query analyses under a brand append
-- ============================================================

theorem guess_brand_none {q : Str} (hq : ∀ b' ∈ C.BRANDS, isSub b' (lcs q) = false) :
    C.guess_brand q = none := by
  unfold C.guess_brand
  rw [List.find?_eq_none.mpr (fun x hx => by simp [hq x hx])]
  rfl

theorem guess_brand_append {q b : Str} (hb : b ∈ C.BRANDS)
    (hq : ∀ b' ∈ C.BRANDS, isSub b' (lcs q) = false) :
    C.guess_brand (q ++ ' ' :: b) = some (pyCapitalize b) := by
  have hf := brand_facts b hb
  have hcong : ∀ b' ∈ C.BRANDS, isSub b' (lcs (q ++ ' ' :: b)) = isSub b' b := by
    intro b' hb'
    have hf' := brand_facts b' hb'
    rw [isSub_lcs_append hf'.1 hf'.2.1 q hf.1 hf.2.1 hf.2.2.1, hq b' hb']
    simp
  have hfind : C.BRANDS.find? (fun b' => isSub b' (lcs (q ++ ' ' :: b))) = some b := by
    apply find?_unique_mem C.BRANDS hb
    · rw [hcong b hb]
      exact isSub_self b
    · intro x hx hpx
      rw [hcong x hx] at hpx
      exact brand_unique_sub x hx b hb hpx
  unfold C.guess_brand
  rw [hfind]
  rfl

theorem dish_washer_append {q b : Str} (hb : b ∈ C.BRANDS) :
    isSub (S "dish washer") (lcs (q ++ ' ' :: b)) = isSub (S "dish washer") (lcs q) := by
  have hf := brand_facts b hb
  have ha := appl_kw_facts b hb
  obtain ⟨w, hw, heq, hnil⟩ := lcs_append_sep q hf.1 hf.2.1 hf.2.2.1
  rw [heq]
  cases hwv : w with
  | nil =>
    rw [hnil hwv]
    simp only [List.nil_append]
    rw [ha.2.2.2.2.1, isSub_nil_right (by decide)]
  | cons w0 wrest =>
    rw [Bool.eq_iff_iff]
    constructor
    · intro h
      rw [show lcs q ++ (w0 :: wrest) ++ b = lcs q ++ ((w0 :: wrest) ++ b) by simp] at h
      rcases isSub_append_cases _ _ h with hx | hm | ⟨i, hi0, hilt, _, hlw⟩
      · exact hx
      · exfalso
        rcases isSub_append_cases _ _ hm with hw' | hy | ⟨i, hi0, hilt, htk, _⟩
        · have hd : 'd' ∈ (w0 :: wrest) := isSub_mem hw' 'd' (by decide)
          have := hw 'd' (by rw [hwv]; exact hd)
          exact absurd this (by decide)
        · rw [ha.2.2.2.2.1] at hy
          exact Bool.false_ne_true hy
        · have hd : 'd' ∈ (S "dish washer").take i := by
            cases i with
            | zero => omega
            | succ i => exact List.mem_cons_self _ _
          have := hw 'd' (by rw [hwv]; exact htk 'd' hd)
          exact absurd this (by decide)
      · exfalso
        have hscan : ∀ i, i < 11 → 0 < i →
            isWS (((S "dish washer").drop i).headD '!') = true →
            (S "dish washer").drop i = ' ' :: S "washer" := by decide
        have hlen11 : (S "dish washer").length = 11 := rfl
        cases hd : (S "dish washer").drop i with
        | nil =>
          have := congrArg List.length hd
          simp only [List.length_drop, hlen11, List.length_nil] at this
          omega
        | cons a as =>
          rw [hd] at hlw
          simp only [List.cons_append, leadsWith, Bool.and_eq_true, beq_iff_eq] at hlw
          have haw0 : a = w0 := hlw.1
          have haWS : isWS a = true := by
            rw [haw0]
            exact hw w0 (by rw [hwv]; exact List.mem_cons_self w0 wrest)
          have hdrop4 : (S "dish washer").drop i = ' ' :: S "washer" := by
            apply hscan i (by rw [← hlen11]; exact hilt) hi0
            rw [hd]
            exact haWS
          rw [hd] at hdrop4
          have has : as = S "washer" := ((List.cons.injEq _ _ _ _).mp hdrop4).2
          have hwrest : ∀ c ∈ wrest, isWS c = true :=
            fun c hc => hw c (by rw [hwv]; exact List.mem_cons_of_mem w0 hc)
          have hlw2 : leadsWith (S "washer") (wrest ++ b) = true := by
            rw [← has]
            exact hlw.2
          have hfin : leadsWith (S "washer") b = true :=
            leadsWith_wsy hwrest (by decide) hlw2
          rw [ha.2.2.2.2.2] at hfin
          exact Bool.false_ne_true hfin
    · intro h
      rw [show lcs q ++ (w0 :: wrest) ++ b = lcs q ++ ((w0 :: wrest) ++ b) by simp]
      exact isSub_append_left _ h

theorem guess_appliance_append {q b : Str} (hb : b ∈ C.BRANDS) :
    C.guess_appliance (q ++ ' ' :: b) none = C.guess_appliance q none := by
  have hf := brand_facts b hb
  have ha := appl_kw_facts b hb
  have h1 : isSub (S "dishwasher") (lcs (q ++ ' ' :: b)) = isSub (S "dishwasher") (lcs q) := by
    rw [isSub_lcs_append (by decide) (by decide) q hf.1 hf.2.1 hf.2.2.1, ha.1]
    simp
  have h2 : isSub (S "refrigerator") (lcs (q ++ ' ' :: b))
      = isSub (S "refrigerator") (lcs q) := by
    rw [isSub_lcs_append (by decide) (by decide) q hf.1 hf.2.1 hf.2.2.1, ha.2.1]
    simp
  have h3 : isSub (S "fridge") (lcs (q ++ ' ' :: b)) = isSub (S "fridge") (lcs q) := by
    rw [isSub_lcs_append (by decide) (by decide) q hf.1 hf.2.1 hf.2.2.1, ha.2.2.1]
    simp
  have h4 : isSub (S "freezer") (lcs (q ++ ' ' :: b)) = isSub (S "freezer") (lcs q) := by
    rw [isSub_lcs_append (by decide) (by decide) q hf.1 hf.2.1 hf.2.2.1, ha.2.2.2.1]
    simp
  have h5 := dish_washer_append (q := q) hb
  simp only [C.guess_appliance]
  rw [h1, h2, h3, h4, h5]

theorem catHits_congr {tl tl' : Str} {keys : List Str}
    (h : ∀ kw ∈ keys, isSub kw tl' = isSub kw tl) :
    C.catHits tl' keys = C.catHits tl keys := by
  unfold C.catHits
  rw [List.filter_congr h]

theorem guess_category_congr {t t' : Str}
    (h : ∀ ck ∈ C.CATEGORY_KEYS, ∀ kw ∈ ck.2, isSub kw (lcs t') = isSub kw (lcs t)) :
    C.guess_category t' = C.guess_category t := by
  have key : ∀ (L : List (Str × List Str)) (acc : Option Str × Nat),
      (∀ ck ∈ L, ∀ kw ∈ ck.2, isSub kw (lcs t') = isSub kw (lcs t)) →
      L.foldl (fun acc ck =>
        if C.catHits (lcs t') ck.2 > acc.2 then (some ck.1, C.catHits (lcs t') ck.2)
        else acc) acc
      = L.foldl (fun acc ck =>
        if C.catHits (lcs t) ck.2 > acc.2 then (some ck.1, C.catHits (lcs t) ck.2)
        else acc) acc := by
    intro L
    induction L with
    | nil => intro acc _; rfl
    | cons ck L' ih =>
      intro acc hL
      simp only [List.foldl_cons]
      rw [catHits_congr (hL ck (List.mem_cons_self ck L'))]
      exact ih _ (fun ck' h' kw hkw => hL ck' (List.mem_cons_of_mem ck h') kw hkw)
  simp only [C.guess_category]
  rw [key C.CATEGORY_KEYS ((none : Option Str), 0) h]

theorem guess_category_append {q b : Str} (hb : b ∈ C.BRANDS) :
    C.guess_category (q ++ ' ' :: b) = C.guess_category q := by
  apply guess_category_congr
  intro ck hck kw hkw
  have hf := brand_facts b hb
  have hk := cat_kw_facts ck hck kw hkw
  rw [isSub_lcs_append hk.1 hk.2.1 q hf.1 hf.2.1 hf.2.2.1, hk.2.2 b hb]
  simp

theorem tokensOf_append {q b : Str} (hb : b ∈ C.BRANDS) :
    C.tokensOf (q ++ ' ' :: b) = C.tokensOf q ++ [b] := by
  have hf := brand_facts b hb
  obtain ⟨w, hw, heq, hnil⟩ := lcs_append_sep q hf.1 hf.2.1 hf.2.2.1
  unfold C.tokensOf
  rw [heq]
  cases hwv : w with
  | nil =>
    rw [hnil hwv]
    simp only [List.nil_append]
    rw [splitRuns_all_pos hf.1 hf.2.2.2.1, splitRuns_nil]
    rfl
  | cons w0 wrest =>
    have hwp : ∀ c ∈ (w0 :: wrest), C.isTokChar c = false :=
      fun c hc => isTokChar_of_WS (hw c (by rw [hwv]; exact hc))
    rw [splitRuns_append_sep hwp (by simp) b (lcs q),
      splitRuns_all_pos hf.1 hf.2.2.2.1]

theorem mem_tokensOf_isSub {q t : Str} (h : t ∈ C.tokensOf q) : isSub t (lcs q) = true :=
  mem_splitRuns_isSub _ _ h

theorem queryToks_append {q b : Str} (hb : b ∈ C.BRANDS)
    (hq : ∀ b' ∈ C.BRANDS, isSub b' (lcs q) = false) :
    C.queryToks (q ++ ' ' :: b) = C.queryToks q ++ [b] := by
  unfold C.queryToks
  rw [tokensOf_append hb]
  refine dedup_append_not_mem _ (fun hmem => ?_)
  have := mem_tokensOf_isSub hmem
  rw [hq b hb] at this
  exact Bool.false_ne_true this

-- ============================================================
-- C8 toolkit (viii): the additive structure of the lexical score
-- ============================================================

theorem scoreItem_components (brand appl cat : Option Str) (toks : List Str) (p : C.Item) :
    C.scoreItem brand appl cat toks p
      = (fq 5 100).add ((C.brGain brand p).add ((C.apGain appl p).add
          ((C.ctGain cat p).add ((C.tokSum toks p).add (C.rkGain cat p))))) := rfl

theorem brGain_den (brand : Option Str) (p : C.Item) : (C.brGain brand p).den = 1 := by
  unfold C.brGain
  cases brand with
  | none => rfl
  | some b => split <;> (try split) <;> rfl

theorem apGain_den (appl : Option Str) (p : C.Item) : (C.apGain appl p).den = 10 := by
  unfold C.apGain
  cases appl with
  | none => rfl
  | some a => split <;> (try split) <;> rfl

theorem ctGain_den (cat : Option Str) (p : C.Item) : (C.ctGain cat p).den = 1 := by
  unfold C.ctGain
  cases cat with
  | none => rfl
  | some c => split <;> (try split) <;> rfl

theorem rkGain_den (cat : Option Str) (p : C.Item) : (C.rkGain cat p).den = 10 := by
  unfold C.rkGain
  split <;> rfl

theorem tokGain_den (t : Str) (p : C.Item) : (C.tokGain t p).den = 100 := by
  unfold C.tokGain
  split <;> split <;> decide

theorem tokSum_den_pos (toks : List Str) (p : C.Item) : 0 < (C.tokSum toks p).den := by
  unfold C.tokSum
  apply fsum_den_pos
  intro x hx
  rcases List.mem_map.mp hx with ⟨t, _, rfl⟩
  rw [tokGain_den]
  decide

theorem scoreItem_den_pos (brand appl cat : Option Str) (toks : List Str) (p : C.Item) :
    0 < (C.scoreItem brand appl cat toks p).den := by
  rw [scoreItem_components]
  refine Frac.den_add_pos (by decide) (Frac.den_add_pos ?_ (Frac.den_add_pos ?_
    (Frac.den_add_pos ?_ (Frac.den_add_pos (tokSum_den_pos toks p) ?_))))
  · rw [brGain_den]; decide
  · rw [apGain_den]; decide
  · rw [ctGain_den]; decide
  · rw [rkGain_den]; decide

theorem scoreFor_den_pos (q : Str) (p : C.Item) : 0 < (C.scoreFor q p).den := by
  unfold C.scoreFor
  exact scoreItem_den_pos _ _ _ _ _

theorem scoreItem_toRat (brand appl cat : Option Str) (toks : List Str) (p : C.Item) :
    (C.scoreItem brand appl cat toks p).toRat
      = (fq 5 100).toRat + (C.brGain brand p).toRat + (C.apGain appl p).toRat
        + (C.ctGain cat p).toRat + (C.tokSum toks p).toRat + (C.rkGain cat p).toRat := by
  have hbr : 0 < (C.brGain brand p).den := by rw [brGain_den]; decide
  have hap : 0 < (C.apGain appl p).den := by rw [apGain_den]; decide
  have hct : 0 < (C.ctGain cat p).den := by rw [ctGain_den]; decide
  have hrk : 0 < (C.rkGain cat p).den := by rw [rkGain_den]; decide
  have htk : 0 < (C.tokSum toks p).den := tokSum_den_pos toks p
  have h5 : 0 < ((C.tokSum toks p).add (C.rkGain cat p)).den := Frac.den_add_pos htk hrk
  have h4 : 0 < ((C.ctGain cat p).add ((C.tokSum toks p).add (C.rkGain cat p))).den :=
    Frac.den_add_pos hct h5
  have h3 : 0 < ((C.apGain appl p).add ((C.ctGain cat p).add
      ((C.tokSum toks p).add (C.rkGain cat p)))).den := Frac.den_add_pos hap h4
  have h2 : 0 < ((C.brGain brand p).add ((C.apGain appl p).add ((C.ctGain cat p).add
      ((C.tokSum toks p).add (C.rkGain cat p))))).den := Frac.den_add_pos hbr h3
  rw [scoreItem_components, Frac.toRat_add _ _ (by decide) h2, Frac.toRat_add _ _ hbr h3,
    Frac.toRat_add _ _ hap h4, Frac.toRat_add _ _ hct h5, Frac.toRat_add _ _ htk hrk]
  ring

theorem tokSum_append_tok (toks : List Str) (b : Str) (p : C.Item) :
    (C.tokSum (toks ++ [b]) p).toRat
      = (C.tokSum toks p).toRat + (C.tokGain b p).toRat := by
  unfold C.tokSum
  have hden : ∀ x ∈ (toks ++ [b]).map (fun t => C.tokGain t p), 0 < x.den := by
    intro x hx
    rcases List.mem_map.mp hx with ⟨t, _, rfl⟩
    rw [tokGain_den]
    decide
  have hden2 : ∀ x ∈ toks.map (fun t => C.tokGain t p), 0 < x.den := by
    intro x hx
    rcases List.mem_map.mp hx with ⟨t, _, rfl⟩
    rw [tokGain_den]
    decide
  rw [fsum_toRat _ hden, fsum_toRat _ hden2, List.map_append, List.map_append,
    List.sum_append]
  simp

theorem tokGain_lb (t : Str) (p : C.Item) : Frac.ble (fq 0 1) (C.tokGain t p) = true := by
  unfold C.tokGain
  split <;> split <;> decide

theorem tokGain_ub (t : Str) (p : C.Item) : Frac.ble (C.tokGain t p) (fq 9 10) = true := by
  unfold C.tokGain
  split <;> split <;> decide

theorem tokGain_toRat_nonneg (t : Str) (p : C.Item) : 0 ≤ (C.tokGain t p).toRat := by
  have h := (Frac.ble_iff (fq 0 1) (C.tokGain t p) (by decide)
    (by rw [tokGain_den]; decide)).mp (tokGain_lb t p)
  have h0 : (fq 0 1).toRat = 0 := by norm_num [Frac.toRat, fq]
  rw [h0] at h
  exact h

theorem tokGain_toRat_le (t : Str) (p : C.Item) : (C.tokGain t p).toRat ≤ 9 / 10 := by
  have h := (Frac.ble_iff (C.tokGain t p) (fq 9 10) (by rw [tokGain_den]; decide)
    (by decide)).mp (tokGain_ub t p)
  have h0 : (fq 9 10).toRat = 9 / 10 := by norm_num [Frac.toRat, fq]
  rw [h0] at h
  exact h

-- ============================================================
-- C8 — brand-append monotonicity of the lexical score
-- ============================================================

theorem brGain_cap_hit {b : Str} (hb : b ∈ C.BRANDS) {p : C.Item}
    (hp : isSub b (lcs p.brand) = true) :
    C.brGain (some (pyCapitalize b)) p = fq 2 1 := by
  have hf := brand_facts b hb
  show (if isSub (lcs (pyCapitalize b)) (lcs p.brand) then fq 2 1 else fq 0 1) = fq 2 1
  rw [hf.2.2.2.2, hp]
  simp

theorem brGain_cap_miss {b : Str} (hb : b ∈ C.BRANDS) {p : C.Item}
    (hp : isSub b (lcs p.brand) = false) :
    C.brGain (some (pyCapitalize b)) p = fq 0 1 := by
  have hf := brand_facts b hb
  show (if isSub (lcs (pyCapitalize b)) (lcs p.brand) then fq 2 1 else fq 0 1) = fq 0 1
  rw [hf.2.2.2.2, hp]
  simp

/-- Appending `" " + b` to a brand-free query shifts an entry's lexical score
by exactly the brand gain (2 if `b` occurs in the entry's brand, else 0) plus
the token gain of the one new query token `b`. -/
theorem scoreFor_append_brand (q b : Str) (p : C.Item) (hb : b ∈ C.BRANDS)
    (hq : ∀ b' ∈ C.BRANDS, isSub b' (lcs q) = false) :
    (C.scoreFor (q ++ ' ' :: b) p).toRat
      = (C.scoreFor q p).toRat + (C.brGain (some (pyCapitalize b)) p).toRat
        + (C.tokGain b p).toRat := by
  have h1 : C.scoreFor (q ++ ' ' :: b) p
      = C.scoreItem (some (pyCapitalize b)) (C.guess_appliance q none)
          (C.guess_category q) (C.queryToks q ++ [b]) p := by
    unfold C.scoreFor
    rw [guess_brand_append hb hq, guess_appliance_append hb, guess_category_append hb,
      queryToks_append hb hq]
  have h0 : C.scoreFor q p
      = C.scoreItem none (C.guess_appliance q none) (C.guess_category q)
          (C.queryToks q) p := by
    unfold C.scoreFor
    rw [guess_brand_none hq]
  rw [h1, h0, scoreItem_toRat, scoreItem_toRat, tokSum_append_tok,
    show C.brGain none p = fq 0 1 from rfl]
  have hz : (fq 0 1).toRat = 0 := by norm_num [Frac.toRat, fq]
  rw [hz]
  ring

/-- C8 (amended): the lexical scorer of `Catalog.search` is monotonic under
appending a correct brand token, **provided the original query mentions no
brand substring** (the corrected precondition; `search_brand_append_demotes`
shows the claim fails without it).  If entry `T` carries brand token `b` and
entry `e` does not, and `T` scored at least as high as `e` on query `q`, then
on `q + " " + b` the entry `T` scores strictly higher than `e` — so in the
descending sort by score, `T`'s rank relative to `e` cannot decrease. -/
theorem search_score_brand_monotonic (q b : Str) (T e : C.Item)
    (hb : b ∈ C.BRANDS)
    (hq : ∀ b' ∈ C.BRANDS, isSub b' (lcs q) = false)
    (hT : isSub b (lcs T.brand) = true)
    (he : isSub b (lcs e.brand) = false)
    (hle : Frac.ble (C.scoreFor q e) (C.scoreFor q T) = true) :
    Frac.blt (C.scoreFor (q ++ ' ' :: b) e) (C.scoreFor (q ++ ' ' :: b) T) = true := by
  rw [Frac.blt_iff _ _ (scoreFor_den_pos _ _) (scoreFor_den_pos _ _)]
  have hle' := (Frac.ble_iff _ _ (scoreFor_den_pos q e) (scoreFor_den_pos q T)).mp hle
  have hTtot := scoreFor_append_brand q b T hb hq
  have hetot := scoreFor_append_brand q b e hb hq
  rw [brGain_cap_hit hb hT] at hTtot
  rw [brGain_cap_miss hb he] at hetot
  have h2 : (fq 2 1).toRat = 2 := by norm_num [Frac.toRat, fq]
  have hz : (fq 0 1).toRat = 0 := by norm_num [Frac.toRat, fq]
  rw [h2] at hTtot
  rw [hz] at hetot
  have hTg := tokGain_toRat_nonneg b T
  have heg := tokGain_toRat_le b e
  rw [hTtot, hetot]
  linarith

/-- Closed instance of `search_score_brand_monotonic`: on the brand-free
query "dish rack", the GE rack entry outranks the Samsung pump entry, and
appending the correct brand token "ge" makes its score strictly dominate. -/
theorem search_score_brand_monotonic_witness :
    Frac.blt (C.scoreFor (S "dish rack" ++ ' ' :: S "ge") itemE8)
      (C.scoreFor (S "dish rack" ++ ' ' :: S "ge") itemT8) = true :=
  search_score_brand_monotonic (S "dish rack") (S "ge") itemT8 itemE8 (by decide)
    (by decide) (by decide) (by decide) (by decide)

/-- C8 counterexample to the claim as stated: the catalog `[itemT8, itemE8]`
and the query "gex rack alpha beta gamma delta", which already matches the
GE entry `itemT8` by category ("rack") — and whose token "gex" already
contains the brand substring "ge".  Appending the brand token "ge" (which
occurs in `itemT8`'s brand field "GE" and not in `itemE8`'s "Samsung")
DEMOTES `itemT8` from rank 1 to rank 2: the brand bonus was already counted,
while the new token "ge" feeds `itemE8`'s name and description matches. -/
theorem search_brand_append_demotes :
    C.search [itemT8, itemE8] (S "gex rack alpha beta gamma delta") none none
      = [itemT8, itemE8]
    ∧ C.search [itemT8, itemE8] (S "gex rack alpha beta gamma delta" ++ ' ' :: S "ge")
        none none = [itemE8, itemT8] := by
  exact ⟨by decide, by decide⟩
